import Mathlib

/-!
Kubernetes cluster resource of the OVH provider: update, waits and version policy;
logs cluster resource: access lists and import.

Shallow embedding of `ovh/resource_cloud_project_kube.go` and of
`ovh/resource_dbaas_logs_cluster.go`.

* The version library used by the update (`hashicorp/go-version`: `NewVersion`,
  `Segments`, `Compare`, `LessThan`) is embedded as pure functions on strings.
* The API client is an oracle `Remote`: the answer to a call is a function of the
  calls made before it, and every call is appended to a trace (`List Call`).
* `StateChangeConf.WaitForState` is embedded as a loop over status fetches; the
  timeout is a budget of fetches given by the environment.
-/

namespace OvhKube

deriving instance DecidableEq for Except

/-! ## go-version -/

/-- Parsed version of go-version: `segments` (int64 values, padded to three), the
prerelease and metadata texts, the number `si` of segments written, the text parsed. -/
structure Version where
  segments : List Int
  pre : String
  metadata : String
  si : Nat
  original : String
deriving DecidableEq, Repr

/-- Errors of `NewVersion`: no match of the version pattern, or a segment out of range. -/
inductive VersionError where
  | malformed (v : String)
  | parsing (segment : String)
deriving DecidableEq, Repr

/-- Character class `[0-9A-Za-z\-~]` of the version pattern. -/
def isIdentChar (c : Char) : Bool :=
  c.isDigit || c.isAlpha || c == '-' || c == '~'

/-- Character class `[A-Za-z\-~]` of the version pattern. -/
def isIdentStart (c : Char) : Bool :=
  c.isAlpha || c == '-' || c == '~'

/-- Characters of the numeric part `[0-9]+(\.[0-9]+)*`. -/
def isNumChar (c : Char) : Bool :=
  c.isDigit || c == '.'

/-- Go `strings.Split(s, sep)` for a one-character separator. -/
def splitOnChar (sep : Char) : List Char → List (List Char)
  | [] => [[]]
  | c :: cs =>
    if c = sep then [] :: splitOnChar sep cs
    else
      match splitOnChar sep cs with
      | [] => [[c]]
      | p :: ps => (c :: p) :: ps

/-- Value of a decimal digit. -/
def digitVal (c : Char) : Nat := c.toNat - 48

/-- Unsigned decimal: nonempty, digits only. -/
def parseDecimal (cs : List Char) : Option Nat :=
  if cs.isEmpty || !cs.all Char.isDigit then none
  else some (cs.foldl (fun acc c => acc * 10 + digitVal c) 0)

/-- First character satisfies `p`. -/
def headIs (p : Char → Bool) : List Char → Bool
  | [] => false
  | c :: _ => p c

/-- Go `strconv.ParseInt(s, 10, 64)`: optional sign, decimal digits, int64 range.
The result is the value and whether there was no error; a syntax error gives 0, a
value out of range gives the nearest int64. -/
def ParseInt (cs : List Char) : Int × Bool :=
  let neg := headIs (fun c => c == '-') cs
  let ds := match cs with
    | '-' :: t => t
    | '+' :: t => t
    | t => t
  match parseDecimal ds with
  | none => (0, false)
  | some un =>
    if !neg && 2 ^ 63 ≤ un then (2 ^ 63 - 1, false)
    else if neg && 2 ^ 63 < un then (-(2 ^ 63), false)
    else (if neg then -(un : Int) else (un : Int), true)

/-- Pattern `[0-9A-Za-z\-~]+(\.[0-9A-Za-z\-~]+)*` on a whole text. -/
def identParts (cs : List Char) : Bool :=
  (splitOnChar '.' cs).all (fun p => !p.isEmpty && p.all isIdentChar)

/-- The optional prerelease group of the version pattern on the text between the
numeric part and the metadata: the captured prerelease (group 7, else group 4), or
`none` when the text does not match. The first alternative is `-` followed by
a part starting with a digit, the second an optional `-` followed by a part starting
with `[A-Za-z\-~]`. -/
def matchPrerelease (cs : List Char) : Option (List Char) :=
  match cs with
  | [] => some []
  | '-' :: rest =>
    if headIs Char.isDigit rest && identParts rest then some rest
    else if headIs isIdentStart rest && identParts rest then some rest
    else if identParts cs then some cs
    else none
  | _ =>
    if headIs isIdentStart cs && identParts cs then some cs else none

/-- The optional metadata group `(\+(...))?` at the end of the text: the text
before it and the captured metadata. -/
def splitMetadata (cs : List Char) : Option (List Char × List Char) :=
  let before := cs.takeWhile (fun c => c != '+')
  match cs.dropWhile (fun c => c != '+') with
  | [] => some (before, [])
  | _ :: md => if identParts md then some (before, md) else none

/-- Parses every numeric segment with `ParseInt`, failing at the first one out of range. -/
def parseSegments : List (List Char) → Except VersionError (List Int)
  | [] => .ok []
  | s :: ss =>
    match ParseInt s with
    | (_, false) => .error (.parsing (String.mk s))
    | (val, true) =>
      match parseSegments ss with
      | .error e => .error e
      | .ok ns => .ok (val :: ns)

/-- go-version `NewVersion`: match `^v?(num)(pre)?(meta)?$`, parse the segments of
the numeric part and pad them with zeros to three. -/
def NewVersion (v : String) : Except VersionError Version :=
  let cs := match v.toList with
    | 'v' :: r => r
    | l => l
  let num := cs.takeWhile isNumChar
  let rest := cs.dropWhile isNumChar
  let segmentsStr := splitOnChar '.' num
  if !segmentsStr.all (fun p => !p.isEmpty) then .error (.malformed v)
  else
    match splitMetadata rest with
    | none => .error (.malformed v)
    | some (preText, md) =>
      match matchPrerelease preText with
      | none => .error (.malformed v)
      | some pre =>
        match parseSegments segmentsStr with
        | .error e => .error e
        | .ok segs =>
          .ok { segments := segs ++ List.replicate (3 - segs.length) 0
                pre := String.mk pre
                metadata := String.mk md
                si := segmentsStr.length
                original := v }

/-- go-version `Segments`: the segments as `int` (64 bits wide, so unchanged). -/
def Version.Segments (v : Version) : List Int := v.segments

/-- Joins texts with a separator (`strings.Join`). -/
def joinWith (sep : String) : List String → String
  | [] => ""
  | [s] => s
  | s :: ss => s ++ sep ++ joinWith sep ss

/-- go-version `String`: segments joined by dots, `-pre`, `+metadata`. -/
def Version.String (v : Version) : String :=
  joinWith "." (v.segments.map toString)
    ++ (if v.pre ≠ "" then "-" ++ v.pre else "")
    ++ (if v.metadata ≠ "" then "+" ++ v.metadata else "")

/-- go-version `allZero`. -/
def allZero (segs : List Int) : Bool := segs.all (fun s => s == 0)

/-- Segment loop of `Compare`: first difference decides; a shorter list is
smaller unless the rest of the longer one is all zeros. -/
def compareSegments : List Int → List Int → Int
  | [], [] => 0
  | [], b :: o => if allZero (b :: o) then 0 else -1
  | a :: s, [] => if allZero (a :: s) then 0 else 1
  | a :: s, b :: o =>
    if a = b then compareSegments s o
    else if a < b then -1
    else 1

/-- go-version `comparePart` on one dot-separated part of two prereleases. -/
def comparePart (preSelf preOther : String) : Int :=
  if preSelf = preOther then 0
  else
    let selfInt := (ParseInt preSelf.toList).1
    let selfNumeric := (ParseInt preSelf.toList).2
    let otherInt := (ParseInt preOther.toList).1
    let otherNumeric := (ParseInt preOther.toList).2
    if preSelf = "" then (if otherNumeric then -1 else 1)
    else if preOther = "" then (if selfNumeric then 1 else -1)
    else if selfNumeric && !otherNumeric then -1
    else if !selfNumeric && otherNumeric then 1
    else if !selfNumeric && !otherNumeric && decide (preOther < preSelf) then 1
    else if otherInt < selfInt then 1
    else -1

/-- Loop of `comparePrereleases` over the parts, a missing part being empty. -/
def compareParts : List String → List String → Int
  | [], [] => 0
  | [], b :: o => if comparePart "" b ≠ 0 then comparePart "" b else compareParts [] o
  | a :: s, [] => if comparePart a "" ≠ 0 then comparePart a "" else compareParts s []
  | a :: s, b :: o => if comparePart a b ≠ 0 then comparePart a b else compareParts s o

/-- go-version `comparePrereleases`. -/
def comparePrereleases (v other : String) : Int :=
  if v = other then 0
  else
    compareParts ((splitOnChar '.' v.toList).map String.mk)
      ((splitOnChar '.' other.toList).map String.mk)

/-- go-version `Compare`: -1, 0 or 1. -/
def Version.Compare (v other : Version) : Int :=
  if v.String = other.String then 0
  else if v.segments = other.segments then
    if v.pre = "" ∧ other.pre = "" then 0
    else if v.pre = "" then 1
    else if other.pre = "" then -1
    else comparePrereleases v.pre other.pre
  else compareSegments v.segments other.segments

/-- go-version `LessThan`. -/
def Version.LessThan (v o : Version) : Bool := decide (v.Compare o < 0)

/-! ## API client, calls and trace -/

/-- Error of an API call: an `*ovh.APIError` with its HTTP code, or any other error. -/
inductive ClientError where
  | api (code : Nat) (message : String)
  | other (message : String)
deriving DecidableEq, Repr

/-- HTTP method of a call. -/
inductive Method where
  | GET
  | PUT
  | POST
  | DELETE
deriving DecidableEq, Repr

/-- Element of the `admissionplugins` set of `customization_apiserver`. -/
structure AdmissionPlugins where
  enabled : List String
  disabled : List String
deriving DecidableEq, Repr

/-- Element of the `customization_apiserver` set. -/
structure ApiServerBlock where
  admissionplugins : List AdmissionPlugins
deriving DecidableEq, Repr

/-- Element of the `iptables` set of `customization_kube_proxy`. -/
structure IptablesBlock where
  minSyncPeriod : String
  syncPeriod : String
deriving DecidableEq, Repr

/-- Element of the `ipvs` set of `customization_kube_proxy`. -/
structure IpvsBlock where
  minSyncPeriod : String
  syncPeriod : String
  scheduler : String
  tcpFinTimeout : String
  tcpTimeout : String
  udpTimeout : String
deriving DecidableEq, Repr

/-- Element of the `customization_kube_proxy` set. -/
structure KubeProxyBlock where
  iptables : List IptablesBlock
  ipvs : List IpvsBlock
deriving DecidableEq, Repr

/-- Element of the `private_network_configuration` set. -/
structure PncBlock where
  defaultVrackGateway : String
  privateNetworkRoutingAsDefault : Bool
deriving DecidableEq, Repr

/-- Request body of a call. `customization` holds the two new set values from which
`loadCustomization` builds `CloudProjectKubeUpdateCustomizationOpts`; `create` holds
the text of the `CloudProjectKubeCreateOpts` built by `FromResource`; `logsOpts` holds
the three lists of `DbaasLogsOpts`. -/
inductive Body where
  | empty
  | customization (apiServer : List ApiServerBlock) (kubeProxy : List KubeProxyBlock)
  | update (strategy : String)
  | updatePolicy (value : String)
  | putName (value : String)
  | pnc (defaultVrackGateway : String) (privateNetworkRoutingAsDefault : Bool)
  | create (params : String)
  | logsOpts (archiveAllowedNetworks directInputAllowedNetworks
      queryAllowedNetworks : List String)
deriving DecidableEq, Repr

/-- One call of the API client. -/
structure Call where
  method : Method
  endpoint : String
  body : Body
deriving DecidableEq, Repr

/-- A call other than a GET changes the remote resource. -/
def Call.isMutation (c : Call) : Bool := c.method != Method.GET

/-- The part of `CloudProjectKubeResponse` the waits and the create read. -/
structure KubeResponse where
  id : String
  status : String
deriving DecidableEq, Repr

/-- The remote side. `respond tr c` is the answer to call `c` made after the calls
`tr`; `budget tr` is the number of status fetches that a wait started after `tr`
completes before its timeout (20 minutes) fires. -/
structure Remote where
  respond : List Call → Call → Except ClientError KubeResponse
  budget : List Call → Nat

/-- Performs a call: it is appended to the trace and answered by the remote side. -/
def Remote.exec (r : Remote) (tr : List Call) (c : Call) :
    List Call × Except ClientError KubeResponse :=
  (tr ++ [c], r.respond tr c)

/-! ## Waits -/

/-- Errors of `WaitForState`: the refresh error, `UnexpectedStateError`, `TimeoutError`. -/
inductive WaitError where
  | refresh (e : ClientError)
  | unexpectedState (state : String)
  | timeout
deriving DecidableEq, Repr

/-- A status fetch: extends the trace and gives a status or an error. -/
abbrev Refresh := List Call → List Call × Except ClientError String

/-- Terraform SDK `StateChangeConf.WaitForState` with `fuel` fetches before the
timeout. A refresh error ends the wait; a status in `target` ends it with success; a
status in `pending` polls again; any other status is an unexpected state when
`pending` is not empty. (The refresh functions here never return a nil result, so
the not-found counting of the SDK is not reached.) -/
def WaitForState (pending target : List String) (refresh : Refresh) :
    Nat → List Call → List Call × Except WaitError Unit
  | 0, tr => (tr, .error .timeout)
  | fuel + 1, tr =>
    match refresh tr with
    | (tr1, .error e) => (tr1, .error (.refresh e))
    | (tr1, .ok currentState) =>
      if target.contains currentState then (tr1, .ok ())
      else if pending.contains currentState then WaitForState pending target refresh fuel tr1
      else if pending.length > 0 then (tr1, .error (.unexpectedState currentState))
      else WaitForState pending target refresh fuel tr1

/-- The GET of the cluster, `/cloud/project/%s/kube/%s`. -/
def kubeGet (serviceName kubeId : String) : Call :=
  { method := .GET, endpoint := "/cloud/project/" ++ serviceName ++ "/kube/" ++ kubeId,
    body := .empty }

/-- Refresh function of `waitForCloudProjectKubeReady`: the status, or the error. -/
def refreshReady (r : Remote) (serviceName kubeId : String) : Refresh := fun tr =>
  match r.exec tr (kubeGet serviceName kubeId) with
  | (tr1, .error err) => (tr1, .error err)
  | (tr1, .ok res) => (tr1, .ok res.status)

/-- Source `waitForCloudProjectKubeReady`. -/
def waitForCloudProjectKubeReady (r : Remote) (serviceName kubeId : String)
    (pending target : List String) (tr : List Call) : List Call × Except WaitError Unit :=
  WaitForState pending target (refreshReady r serviceName kubeId) (r.budget tr) tr

/-- Refresh function of `waitForCloudProjectKubeDeleted`: an API error with code
404 becomes the status `DELETED`. -/
def refreshDeleted (r : Remote) (serviceName kubeId : String) : Refresh := fun tr =>
  match r.exec tr (kubeGet serviceName kubeId) with
  | (tr1, .error (.api code msg)) =>
    if code = 404 then (tr1, .ok "DELETED") else (tr1, .error (.api code msg))
  | (tr1, .error (.other msg)) => (tr1, .error (.other msg))
  | (tr1, .ok res) => (tr1, .ok res.status)

/-- Source `waitForCloudProjectKubeDeleted`. -/
def waitForCloudProjectKubeDeleted (r : Remote) (serviceName kubeId : String)
    (tr : List Call) : List Call × Except WaitError Unit :=
  WaitForState ["DELETING"] ["DELETED"] (refreshDeleted r serviceName kubeId) (r.budget tr) tr

/-! ## Resource data -/

/-- A string field with its prior and planned value (`d.GetChange`). -/
structure StringChange where
  old : String
  new : String
deriving DecidableEq, Repr

/-- Result of `d.HasChange` on a string field. -/
def StringChange.HasChange (c : StringChange) : Bool := c.old != c.new

/-- A set field: whether the schema layer reports a change (`d.HasChange`), and the
elements of the prior and planned sets (`d.GetChange`). -/
structure SetChange (α : Type) where
  hasChange : Bool
  old : List α
  new : List α
deriving DecidableEq, Repr

/-- The fields of `schema.ResourceData` read by the update. -/
structure ResourceData where
  id : String
  serviceName : String
  customizationApiserver : SetChange ApiServerBlock
  customizationKubeProxy : SetChange KubeProxyBlock
  version : StringChange
  updatePolicy : StringChange
  name : StringChange
  privateNetworkConfiguration : SetChange PncBlock
deriving DecidableEq, Repr

/-! ## Update -/

/-- Errors returned by `resourceCloudProjectKubeUpdate`, in the order of the source:
an error of the client returned as is, a failed wait for READY, the five errors of
the version block, and the runtime failure of an index out of range. -/
inductive UpdateError where
  | client (e : ClientError)
  | waitReady (kubeId : String) (e : WaitError)
  | notSemver (value : String)
  | unsupportedMajor
  | majorMinorOnly
  | downgrade (oldValue newValue : String)
  | nextMinorOnly (oldValue newValue : String)
  | indexOutOfRange
deriving DecidableEq, Repr

/-- Go `int` addition result brought back into 64 bits. -/
def wrapInt64 (x : Int) : Int := (x + 2 ^ 63) % 2 ^ 64 - 2 ^ 63

/-- Lines 472-498 of `resourceCloudProjectKubeUpdate`: the checks made on the old
and new version text before the upgrade is requested. -/
def validateVersionChange (oldValue newValue : String) : Except UpdateError Unit :=
  match NewVersion oldValue with
  | .error _ => .error (.notSemver oldValue)
  | .ok oldVersion =>
    match NewVersion newValue with
    | .error _ => .error (.notSemver newValue)
    | .ok newVersion =>
      let oldVersionSegments := oldVersion.Segments
      let newVersionSegments := newVersion.Segments
      match oldVersionSegments[0]?, newVersionSegments[0]? with
      | none, _ => .error .indexOutOfRange
      | some o0, n0 =>
        if o0 ≠ 1 then .error .unsupportedMajor
        else
          match n0 with
          | none => .error .indexOutOfRange
          | some n0 =>
            if n0 ≠ 1 then .error .unsupportedMajor
            else if oldVersionSegments.length < 2 || newVersionSegments.length < 2 then
              .error .majorMinorOnly
            else if newVersion.LessThan oldVersion then
              .error (.downgrade oldValue newValue)
            else
              match oldVersionSegments[1]?, newVersionSegments[1]? with
              | some o1, some n1 =>
                if wrapInt64 (o1 + 1) ≠ n1 then .error (.nextMinorOnly oldValue newValue)
                else .ok ()
              | _, _ => .error .indexOutOfRange

/-- A step of the update: from the trace so far to the trace after it and its result. -/
abbrev Step := List Call → List Call × Except UpdateError Unit

/-- Runs `k` when the part before it succeeded; an error is returned at once. -/
def andThen (s : List Call × Except UpdateError Unit) (k : Step) :
    List Call × Except UpdateError Unit :=
  match s with
  | (tr, .error e) => (tr, .error e)
  | (tr, .ok ()) => k tr

/-- A mutation followed, when `wait` is given, by the wait it needs: the client
error is returned as is, the wait error wrapped with the cluster id. -/
def mutateThenWait (r : Remote) (kubeId : String) (c : Call)
    (wait : Option (List Call → List Call × Except WaitError Unit)) : Step := fun tr =>
  match r.exec tr c with
  | (tr1, .error err) => (tr1, .error (.client err))
  | (tr1, .ok _) =>
    match wait with
    | none => (tr1, .ok ())
    | some w =>
      match w tr1 with
      | (tr2, .error err) => (tr2, .error (.waitReady kubeId err))
      | (tr2, .ok ()) => (tr2, .ok ())

/-- The PUT of lines 450-451. -/
def customizationCall (d : ResourceData) : Call :=
  { method := .PUT
    endpoint := "/cloud/project/" ++ d.serviceName ++ "/kube/" ++ d.id ++ "/customization"
    body := .customization d.customizationApiserver.new d.customizationKubeProxy.new }

/-- The POST of lines 500-503. -/
def upgradeCall (d : ResourceData) : Call :=
  { method := .POST
    endpoint := "/cloud/project/" ++ d.serviceName ++ "/kube/" ++ d.id ++ "/update"
    body := .update "NEXT_MINOR" }

/-- The PUT of lines 520-523. -/
def updatePolicyCall (d : ResourceData) : Call :=
  { method := .PUT
    endpoint := "/cloud/project/" ++ d.serviceName ++ "/kube/" ++ d.id ++ "/updatePolicy"
    body := .updatePolicy d.updatePolicy.new }

/-- The PUT of lines 533-536. -/
def renameCall (d : ResourceData) : Call :=
  { method := .PUT
    endpoint := "/cloud/project/" ++ d.serviceName ++ "/kube/" ++ d.id
    body := .putName d.name.new }

/-- Loop of lines 547-551: the values of the last element, zero values if there is none. -/
def pncOutput : List PncBlock → String × Bool
  | [] => ("", false)
  | [p] => (p.defaultVrackGateway, p.privateNetworkRoutingAsDefault)
  | _ :: ps => pncOutput ps

/-- The PUT of lines 553-557. -/
def pncCall (d : ResourceData) : Call :=
  { method := .PUT
    endpoint := "/cloud/project/" ++ d.serviceName ++ "/kube/" ++ d.id
      ++ "/privateNetworkConfiguration"
    body := .pnc (pncOutput d.privateNetworkConfiguration.new).1
      (pncOutput d.privateNetworkConfiguration.new).2 }

/-- Lines 439-462: customization PUT, then wait for READY. -/
def customizationStep (r : Remote) (d : ResourceData) : Step := fun tr =>
  if d.customizationApiserver.hasChange || d.customizationKubeProxy.hasChange then
    mutateThenWait r d.id (customizationCall d)
      (some (waitForCloudProjectKubeReady r d.serviceName d.id
        ["REDEPLOYING", "RESETTING"] ["READY"])) tr
  else (tr, .ok ())

/-- Lines 464-514: version checks, upgrade POST, then wait for READY. -/
def versionStep (r : Remote) (d : ResourceData) : Step := fun tr =>
  if d.version.HasChange then
    match validateVersionChange d.version.old d.version.new with
    | .error e => (tr, .error e)
    | .ok () =>
      mutateThenWait r d.id (upgradeCall d)
        (some (waitForCloudProjectKubeReady r d.serviceName d.id
          ["UPDATING", "REDEPLOYING", "RESETTING"] ["READY"])) tr
  else (tr, .ok ())

/-- Lines 516-527: update-policy PUT, no wait. -/
def updatePolicyStep (r : Remote) (d : ResourceData) : Step := fun tr =>
  if d.updatePolicy.HasChange then mutateThenWait r d.id (updatePolicyCall d) none tr
  else (tr, .ok ())

/-- Lines 529-540: name PUT, no wait. -/
def renameStep (r : Remote) (d : ResourceData) : Step := fun tr =>
  if d.name.HasChange then mutateThenWait r d.id (renameCall d) none tr
  else (tr, .ok ())

/-- Lines 542-568: private-network configuration PUT, then wait for READY. -/
def pncStep (r : Remote) (d : ResourceData) : Step := fun tr =>
  if d.privateNetworkConfiguration.hasChange then
    mutateThenWait r d.id (pncCall d)
      (some (waitForCloudProjectKubeReady r d.serviceName d.id
        ["REDEPLOYING", "RESETTING"] ["READY"])) tr
  else (tr, .ok ())

/-- Source `resourceCloudProjectKubeUpdate`: the five blocks in order, starting
from the empty trace; the first error is returned. -/
def resourceCloudProjectKubeUpdate (r : Remote) (d : ResourceData) :
    List Call × Except UpdateError Unit :=
  andThen (andThen (andThen (andThen (customizationStep r d []) (versionStep r d))
    (updatePolicyStep r d)) (renameStep r d)) (pncStep r d)

/-! ## The update as a list of steps -/

/-- The five blocks of `resourceCloudProjectKubeUpdate`. -/
inductive StepKind where
  | customization
  | version
  | updatePolicy
  | rename
  | pnc
deriving DecidableEq, Repr

/-- Order of the blocks in the source. -/
def updateOrder : List StepKind :=
  [.customization, .version, .updatePolicy, .rename, .pnc]

/-- The block of a kind. -/
def stepOf (r : Remote) (d : ResourceData) : StepKind → Step
  | .customization => customizationStep r d
  | .version => versionStep r d
  | .updatePolicy => updatePolicyStep r d
  | .rename => renameStep r d
  | .pnc => pncStep r d

/-- The mutation call of a block. -/
def callOf (d : ResourceData) : StepKind → Call
  | .customization => customizationCall d
  | .version => upgradeCall d
  | .updatePolicy => updatePolicyCall d
  | .rename => renameCall d
  | .pnc => pncCall d

/-- The condition (`d.HasChange`) guarding a block. -/
def changedOf (d : ResourceData) : StepKind → Bool
  | .customization => d.customizationApiserver.hasChange || d.customizationKubeProxy.hasChange
  | .version => d.version.HasChange
  | .updatePolicy => d.updatePolicy.HasChange
  | .rename => d.name.HasChange
  | .pnc => d.privateNetworkConfiguration.hasChange

/-- Whether the block waits for READY after its mutation. -/
def hasWait : StepKind → Bool
  | .customization => true
  | .version => true
  | .updatePolicy => false
  | .rename => false
  | .pnc => true

/-- The pending statuses of the wait of a block. -/
def pendingOf : StepKind → List String
  | .version => ["UPDATING", "REDEPLOYING", "RESETTING"]
  | _ => ["REDEPLOYING", "RESETTING"]

/-- Runs blocks in the given order from a trace, stopping at the first error. -/
def runSteps (r : Remote) (d : ResourceData) : List StepKind → Step
  | [], tr => (tr, .ok ())
  | k :: ks, tr => andThen (stepOf r d k tr) (runSteps r d ks)

/-- The mutation calls of the blocks whose field changed, in the order of the source. -/
def plannedMutations (d : ResourceData) (ks : List StepKind) : List Call :=
  (ks.filter (changedOf d)).map (callOf d)

/-- Whether an error is one of the errors of the version checks. -/
def UpdateError.isPolicyError : UpdateError → Bool
  | .notSemver _ => true
  | .unsupportedMajor => true
  | .majorMinorOnly => true
  | .downgrade _ _ => true
  | .nextMinorOnly _ _ => true
  | _ => false

/-! ## Sample inputs -/

/-- Resource data in which no field changed. -/
def unchangedData : ResourceData :=
  { id := "kube1"
    serviceName := "svc"
    customizationApiserver := ⟨false, [], []⟩
    customizationKubeProxy := ⟨false, [], []⟩
    version := ⟨"1.24", "1.24"⟩
    updatePolicy := ⟨"ALWAYS_UPDATE", "ALWAYS_UPDATE"⟩
    name := ⟨"cluster", "cluster"⟩
    privateNetworkConfiguration := ⟨false, [], []⟩ }

/-- The kube-proxy customization changed and the version goes from 1.24 to 1.26. -/
def customizationAndSkipData : ResourceData :=
  { unchangedData with
    customizationKubeProxy := ⟨true, [], [⟨[⟨"PT0S", "PT30S"⟩], []⟩]⟩
    version := ⟨"1.24", "1.26"⟩ }

/-- The kube-proxy customization changed and the version goes from 1.24 to 1.25. -/
def customizationAndUpgradeData : ResourceData :=
  { unchangedData with
    customizationKubeProxy := ⟨true, [], [⟨[⟨"PT0S", "PT30S"⟩], []⟩]⟩
    version := ⟨"1.24", "1.25"⟩ }

/-- A remote side that accepts every call and always reports READY. -/
def remoteReady : Remote :=
  { respond := fun _ _ => .ok ⟨"kube1", "READY"⟩
    budget := fun _ => 10 }

/-- A remote side on which every call fails with a transport error. -/
def remoteDown : Remote :=
  { respond := fun _ _ => .error (.other "connection refused")
    budget := fun _ => 10 }

/-- A remote side that accepts every call and always reports the status ERROR. -/
def remoteError : Remote :=
  { respond := fun _ _ => .ok ⟨"kube1", "ERROR"⟩
    budget := fun _ => 10 }

/-- A remote side that reports DELETING at the first call and not-found afterwards. -/
def remoteDeleting : Remote :=
  { respond := fun tr _ =>
      match tr with
      | [] => .ok ⟨"kube1", "DELETING"⟩
      | _ :: _ => .error (.api 404 "This service does not exist")
    budget := fun _ => 10 }

/-! ## Create, read, delete and import of the cluster -/

/-- The resource data used by create, read, delete and import: the identifier, the
service name, whether the resource is new (`d.IsNewResource`), the text of the create
options, the stored kubeconfig and the attributes last read from the API. -/
structure KubeData where
  id : String
  serviceName : String
  isNewResource : Bool
  createParams : String
  kubeconfig : String
  attributes : Option KubeResponse
deriving DecidableEq, Repr

/-- Errors of create, read, delete and import, one per `return` of the source: the
wrapped error of the create POST, the error of the availability wait, a failed wait
for READY or for DELETED, an error of `CheckDeleted`, an error of the client returned
as is, and the malformed import identifier. -/
inductive LifecycleError where
  | callingPost (endpoint params : String) (e : ClientError)
  | available (e : WaitError)
  | waitReady (kubeId : String) (e : WaitError)
  | waitDeleted (kubeId : String) (e : WaitError)
  | calling (endpoint : String) (e : ClientError)
  | client (e : ClientError)
  | importIdFormat
deriving DecidableEq, Repr

/-- Functions called by create, read and import whose code is not among the sources,
taken as parameters: `helpers.WaitAvailable` (bounded wait until the cluster can be
read at the endpoint) and `getKubeconfig` (service name, cluster id). Each extends
the trace with the calls it makes. -/
structure Helpers where
  WaitAvailable : Remote → String → List Call → List Call × Except WaitError Unit
  getKubeconfig : Remote → String → String → List Call → List Call × Except ClientError String

/-- Modelled from the spec: `helpers.CheckDeleted`, whose code is not among the
sources. A not-found answer (an API error with code 404) to a request on a resource
that is already absent is treated as success, as on the successful path of the delete
(no error, identifier cleared); any other error is returned as a failure that names
the endpoint. -/
def CheckDeleted (d : KubeData) (err : ClientError) (endpoint : String) :
    KubeData × Except LifecycleError Unit :=
  match err with
  | .api code msg =>
    if code = 404 then ({ d with id := "" }, .ok ())
    else (d, .error (.calling endpoint (.api code msg)))
  | .other msg => (d, .error (.calling endpoint (.other msg)))

/-- The endpoint `/cloud/project/%s/kube/%s`. -/
def kubeEndpoint (serviceName kubeId : String) : String :=
  "/cloud/project/" ++ serviceName ++ "/kube/" ++ kubeId

/-- The POST of lines 350-355. -/
def createCall (d : KubeData) : Call :=
  { method := .POST
    endpoint := "/cloud/project/" ++ d.serviceName ++ "/kube"
    body := .create d.createParams }

/-- The DELETE of lines 415-418. -/
def deleteCall (d : KubeData) : Call :=
  { method := .DELETE, endpoint := kubeEndpoint d.serviceName d.id, body := .empty }

/-- Source `resourceCloudProjectKubeRead`, from a trace: GET of the cluster; an error
goes to `CheckDeleted`; otherwise the entries of `res.ToMap()` are stored (the entry
`id` is the identifier of the answer) and, for a new resource, the kubeconfig is
fetched and stored. -/
def resourceCloudProjectKubeRead (h : Helpers) (r : Remote) (d : KubeData)
    (tr : List Call) : List Call × KubeData × Except LifecycleError Unit :=
  match r.exec tr (kubeGet d.serviceName d.id) with
  | (tr1, .error err) =>
    (tr1, (CheckDeleted d err (kubeEndpoint d.serviceName d.id)).1,
      (CheckDeleted d err (kubeEndpoint d.serviceName d.id)).2)
  | (tr1, .ok res) =>
    let d1 := { d with id := res.id, attributes := some res }
    if d1.isNewResource then
      match h.getKubeconfig r d.serviceName res.id tr1 with
      | (tr2, .error err) => (tr2, d1, .error (.client err))
      | (tr2, .ok kubeConfig) => (tr2, { d1 with kubeconfig := kubeConfig }, .ok ())
    else (tr1, d1, .ok ())

/-- Source `resourceCloudProjectKubeCreate`: POST, wait until the cluster is
available, wait for READY with pending INSTALLING, record the identifier, read. -/
def resourceCloudProjectKubeCreate (h : Helpers) (r : Remote) (d : KubeData) :
    List Call × KubeData × Except LifecycleError Unit :=
  match r.exec [] (createCall d) with
  | (tr1, .error err) =>
    (tr1, d, .error (.callingPost (createCall d).endpoint d.createParams err))
  | (tr1, .ok res) =>
    match h.WaitAvailable r (kubeEndpoint d.serviceName res.id) tr1 with
    | (tr2, .error err) => (tr2, d, .error (.available err))
    | (tr2, .ok ()) =>
      match waitForCloudProjectKubeReady r d.serviceName res.id ["INSTALLING"] ["READY"]
          tr2 with
      | (tr3, .error err) => (tr3, d, .error (.waitReady res.id err))
      | (tr3, .ok ()) => resourceCloudProjectKubeRead h r { d with id := res.id } tr3

/-- Source `resourceCloudProjectKubeDelete`: DELETE; an error goes to `CheckDeleted`;
otherwise wait for DELETED and clear the identifier. -/
def resourceCloudProjectKubeDelete (r : Remote) (d : KubeData) :
    List Call × KubeData × Except LifecycleError Unit :=
  match r.exec [] (deleteCall d) with
  | (tr1, .error err) =>
    (tr1, (CheckDeleted d err (kubeEndpoint d.serviceName d.id)).1,
      (CheckDeleted d err (kubeEndpoint d.serviceName d.id)).2)
  | (tr1, .ok _) =>
    match waitForCloudProjectKubeDeleted r d.serviceName d.id tr1 with
    | (tr2, .error err) => (tr2, d, .error (.waitDeleted d.id err))
    | (tr2, .ok ()) => (tr2, { d with id := "" }, .ok ())

/-- A remote side on which the cluster is absent: every call is answered 404. -/
def remoteAbsent : Remote :=
  { respond := fun _ _ => .error (.api 404 "This service does not exist")
    budget := fun _ => 10 }

/-- A remote side that answers the first call with the identifier kube1, reports
INSTALLING at the next two calls and READY afterwards. -/
def remoteInstalling : Remote :=
  { respond := fun tr _ =>
      if tr.length = 0 then .ok ⟨"kube1", ""⟩
      else if tr.length < 3 then .ok ⟨"kube1", "INSTALLING"⟩
      else .ok ⟨"kube1", "READY"⟩
    budget := fun _ => 10 }

/-- Helpers that make no call: the cluster is available at once and the kubeconfig
is a fixed text. -/
def helpersQuiet : Helpers :=
  { WaitAvailable := fun _ _ tr => (tr, .ok ())
    getKubeconfig := fun _ _ _ tr => (tr, .ok "kubeconfig") }

/-- Helpers whose availability wait times out. -/
def helpersUnavailable : Helpers :=
  { WaitAvailable := fun _ _ tr => (tr, .error .timeout)
    getKubeconfig := fun _ _ _ tr => (tr, .ok "kubeconfig") }

/-- Resource data of a cluster to create. -/
def newKubeData : KubeData :=
  { id := ""
    serviceName := "svc"
    isNewResource := true
    createParams := "name=cluster region=GRA"
    kubeconfig := ""
    attributes := none }

/-- Resource data of the existing cluster kube1. -/
def existingKubeData : KubeData :=
  { newKubeData with id := "kube1", isNewResource := false }

/-- The status answered to fetch number `k` (from 0) of a wait on the cluster that
starts after the calls `tr`, or the error of that fetch. -/
def statusAt (r : Remote) (serviceName kubeId : String) (tr : List Call) (k : Nat) :
    Except ClientError String :=
  match r.respond (tr ++ List.replicate k (kubeGet serviceName kubeId))
      (kubeGet serviceName kubeId) with
  | .error e => .error e
  | .ok res => .ok res.status

/-- A remote side that reports ERROR at the first call and READY afterwards. -/
def remoteErrorThenReady : Remote :=
  { respond := fun tr _ =>
      match tr with
      | [] => .ok ⟨"kube1", "ERROR"⟩
      | _ :: _ => .ok ⟨"kube1", "READY"⟩
    budget := fun _ => 10 }

/-! ## Import identifiers -/

/-- Go `strings.SplitN` on characters for a one-character separator and a count
`n ≥ 0`: at most `n` parts, the last one holding the rest unsplit. -/
def splitNChars (sep : Char) : Nat → List Char → List (List Char)
  | 0, _ => []
  | 1, cs => [cs]
  | n + 2, cs =>
    if cs.contains sep then
      cs.takeWhile (fun c => c != sep)
        :: splitNChars sep (n + 1) (cs.dropWhile (fun c => c != sep)).tail
    else [cs]

/-- Go `strings.SplitN(s, sep, n)` for a one-character separator. -/
def SplitN (s : String) (sep : Char) (n : Nat) : List String :=
  (splitNChars sep n s.toList).map String.mk

/-- Source `resourceCloudProjectKubeImportState`: the given identifier is split at the
first `/` into service name and cluster id; then the kubeconfig is fetched and stored. -/
def resourceCloudProjectKubeImportState (h : Helpers) (r : Remote) (d : KubeData) :
    List Call × Except LifecycleError (List KubeData) :=
  match SplitN d.id '/' 2 with
  | [serviceName, id] =>
    match h.getKubeconfig r serviceName id [] with
    | (tr, .error err) => (tr, .error (.client err))
    | (tr, .ok kubeConfig) =>
      (tr, .ok [{ d with id := id, serviceName := serviceName, kubeconfig := kubeConfig }])
  | _ => ([], .error .importIdFormat)

/-! ## Logs cluster -/

/-- The entries of the answer to the GET of a logs cluster read by create and read. -/
structure LogsClusterAnswer where
  archiveAllowedNetworks : List String
  clusterType : String
  dedicatedInputPEM : String
  directInputAllowedNetworks : List String
  directInputPEM : String
  hostname : String
  isDefault : Bool
  isUnlocked : Bool
  queryAllowedNetworks : List String
  region : String
deriving DecidableEq, Repr

/-- The resource data of a logs cluster. A set field holds the elements of the set
in the order of `Set.List()`. -/
structure LogsData where
  id : String
  serviceName : String
  archiveAllowedNetworks : List String
  directInputAllowedNetworks : List String
  queryAllowedNetworks : List String
  clusterType : String
  dedicatedInputPem : String
  directInputPem : String
  hostname : String
  isDefault : Bool
  isUnlocked : Bool
  region : String
  initialArchiveAllowedNetworks : List String
  initialDirectInputAllowedNetworks : List String
  initialQueryAllowedNetworks : List String
deriving DecidableEq, Repr

/-- Errors of the logs cluster functions, one per `return` of the source. -/
inductive LogsError where
  | fetchingInfo (serviceName : String) (e : ClientError)
  | callingGet (endpoint : String) (e : ClientError)
  | callingPut (endpoint : String) (e : ClientError)
  | operation (e : WaitError)
  | importIdFormat
deriving DecidableEq, Repr

/-- The logs API: the answer to a GET of the cluster and the operation id answered to
a PUT, each as a function of the calls made before. -/
structure LogsRemote where
  get : List Call → Call → Except ClientError LogsClusterAnswer
  put : List Call → Call → Except ClientError String

/-- What the logs cluster functions use and the sources do not contain, taken as
parameters: `dbaasGetClusterID`, `waitForDbaasLogsOperation` (which only fetches),
`DbaasLogsOpts.FromResource`, `url.PathEscape`, and `setOf`, the elements in the order
of `Set.List()` of the string set that `d.Set` stores for a list. The laws `setOf_mem`
and `setOf_nodup` take the set as ideal: each element of the list is kept, once. (The
set of the SDK keys its elements by a hash code and keeps one element per key, so it
drops an element whose key equals that of another one.) -/
structure LogsHelpers where
  dbaasGetClusterID : LogsRemote → String → List Call → List Call × Except ClientError String
  waitForDbaasLogsOperation :
    LogsRemote → String → String → List Call → List Call × Except WaitError Unit
  FromResource : LogsData → List String × List String × List String
  PathEscape : String → String
  setOf : List String → List String
  wait_fetches : ∀ r s o tr, ∃ gets, (waitForDbaasLogsOperation r s o tr).1 = tr ++ gets ∧
    ∀ c ∈ gets, c.method = Method.GET
  setOf_mem : ∀ l x, x ∈ setOf l ↔ x ∈ l
  setOf_nodup : ∀ l, (setOf l).Nodup

/-- The endpoint `/dbaas/logs/%s/cluster/%s` with both parts escaped. -/
def logsEndpoint (h : LogsHelpers) (serviceName clusterId : String) : String :=
  "/dbaas/logs/" ++ h.PathEscape serviceName ++ "/cluster/" ++ h.PathEscape clusterId

/-- The GET of a logs cluster. -/
def logsGet (h : LogsHelpers) (serviceName clusterId : String) : Call :=
  { method := .GET, endpoint := logsEndpoint h serviceName clusterId, body := .empty }

/-- The loops of lines 172-185: a slice of the length of the list, filled index by
index with the elements of the list. -/
def copyStrings (l : List String) : List String :=
  l.enum.foldl (fun out p => out.set p.1 p.2) (List.replicate l.length "")

/-- The PUT of `resourceDbaasLogsClusterDelete`: the three initial sets. -/
def restoreCall (h : LogsHelpers) (d : LogsData) : Call :=
  { method := .PUT
    endpoint := logsEndpoint h d.serviceName d.id
    body := .logsOpts (copyStrings d.initialArchiveAllowedNetworks)
      (copyStrings d.initialDirectInputAllowedNetworks)
      (copyStrings d.initialQueryAllowedNetworks) }

/-- The PUT of `resourceDbaasLogsClusterUpdate`: the options built by `FromResource`. -/
def logsUpdateCall (h : LogsHelpers) (d : LogsData) : Call :=
  { method := .PUT
    endpoint := logsEndpoint h d.serviceName d.id
    body := .logsOpts (h.FromResource d).1 (h.FromResource d).2.1 (h.FromResource d).2.2 }

/-- Source `resourceDbaasLogsClusterRead`, from a trace. -/
def resourceDbaasLogsClusterRead (h : LogsHelpers) (r : LogsRemote) (d : LogsData)
    (tr : List Call) : List Call × LogsData × Except LogsError Unit :=
  match r.get tr (logsGet h d.serviceName d.id) with
  | .error err =>
    (tr ++ [logsGet h d.serviceName d.id], d,
      .error (.callingGet (logsEndpoint h d.serviceName d.id) err))
  | .ok res =>
    (tr ++ [logsGet h d.serviceName d.id],
      { d with
        archiveAllowedNetworks := h.setOf res.archiveAllowedNetworks
        clusterType := res.clusterType
        dedicatedInputPem := res.dedicatedInputPEM
        directInputAllowedNetworks := h.setOf res.directInputAllowedNetworks
        directInputPem := res.directInputPEM
        hostname := res.hostname
        isDefault := res.isDefault
        isUnlocked := res.isUnlocked
        queryAllowedNetworks := h.setOf res.queryAllowedNetworks
        region := res.region },
      .ok ())

/-- Source `resourceDbaasLogsClusterUpdate`, from a trace: PUT of the configured
options, wait for the operation, read. -/
def resourceDbaasLogsClusterUpdate (h : LogsHelpers) (r : LogsRemote) (d : LogsData)
    (tr : List Call) : List Call × LogsData × Except LogsError Unit :=
  match r.put tr (logsUpdateCall h d) with
  | .error err =>
    (tr ++ [logsUpdateCall h d], d,
      .error (.callingPut (logsEndpoint h d.serviceName d.id) err))
  | .ok operationId =>
    match h.waitForDbaasLogsOperation r d.serviceName operationId
        (tr ++ [logsUpdateCall h d]) with
    | (tr2, .error err) => (tr2, d, .error (.operation err))
    | (tr2, .ok ()) => resourceDbaasLogsClusterRead h r d tr2

/-- Source `resourceDbaasLogsClusterCreate`: the cluster id becomes the identifier,
the three access lists of the remote cluster are stored as the initial sets, then the
update runs. -/
def resourceDbaasLogsClusterCreate (h : LogsHelpers) (r : LogsRemote) (d : LogsData) :
    List Call × LogsData × Except LogsError Unit :=
  match h.dbaasGetClusterID r d.serviceName [] with
  | (tr1, .error err) => (tr1, d, .error (.fetchingInfo d.serviceName err))
  | (tr1, .ok clusterId) =>
    match r.get tr1 (logsGet h d.serviceName clusterId) with
    | .error err =>
      (tr1 ++ [logsGet h d.serviceName clusterId], { d with id := clusterId },
        .error (.callingGet (logsEndpoint h d.serviceName clusterId) err))
    | .ok res =>
      resourceDbaasLogsClusterUpdate h r
        { d with
          id := clusterId
          initialArchiveAllowedNetworks := h.setOf res.archiveAllowedNetworks
          initialDirectInputAllowedNetworks := h.setOf res.directInputAllowedNetworks
          initialQueryAllowedNetworks := h.setOf res.queryAllowedNetworks }
        (tr1 ++ [logsGet h d.serviceName clusterId])

/-- Source `resourceDbaasLogsClusterDelete`: PUT of the initial sets, wait for the
operation, clear the identifier. -/
def resourceDbaasLogsClusterDelete (h : LogsHelpers) (r : LogsRemote) (d : LogsData) :
    List Call × LogsData × Except LogsError Unit :=
  match r.put [] (restoreCall h d) with
  | .error err =>
    ([restoreCall h d], d, .error (.callingPut (logsEndpoint h d.serviceName d.id) err))
  | .ok operationId =>
    match h.waitForDbaasLogsOperation r d.serviceName operationId [restoreCall h d] with
    | (tr2, .error err) => (tr2, d, .error (.operation err))
    | (tr2, .ok ()) => (tr2, { d with id := "" }, .ok ())

/-- Source `resourceDbaasLogsClusterImportState`: the given identifier is split at the
first `/` into service name and cluster id. -/
def resourceDbaasLogsClusterImportState (d : LogsData) : Except LogsError (List LogsData) :=
  match SplitN d.id '/' 2 with
  | [serviceName, id] => .ok [{ d with id := id, serviceName := serviceName }]
  | _ => .error .importIdFormat

/-- Helpers for the examples: the cluster id is a fixed text found without a call, the
wait makes no call, the options are the configured sets, nothing is escaped, and a
set keeps the first occurrence of each element. -/
def logsHelpersQuiet : LogsHelpers :=
  { dbaasGetClusterID := fun _ _ tr => (tr, .ok "cluster1")
    waitForDbaasLogsOperation := fun _ _ _ tr => (tr, .ok ())
    FromResource := fun d =>
      (d.archiveAllowedNetworks, d.directInputAllowedNetworks, d.queryAllowedNetworks)
    PathEscape := fun s => s
    setOf := fun l => l.dedup
    wait_fetches := fun _ _ _ tr => ⟨[], by simp⟩
    setOf_mem := fun _ _ => List.mem_dedup
    setOf_nodup := fun l => List.nodup_dedup l }

/-- A logs API whose cluster has the given access lists and accepts every PUT. -/
def logsRemoteWith (archive directInput query : List String) : LogsRemote :=
  { get := fun _ _ =>
      .ok { archiveAllowedNetworks := archive
            clusterType := "DEDICATED"
            dedicatedInputPEM := ""
            directInputAllowedNetworks := directInput
            directInputPEM := ""
            hostname := "gra1.logs.ovh.com"
            isDefault := true
            isUnlocked := false
            queryAllowedNetworks := query
            region := "GRA" }
    put := fun _ _ => .ok "operation1" }

/-- Resource data of a logs cluster to create, with configured access lists. -/
def newLogsData : LogsData :=
  { id := ""
    serviceName := "ldp-xx-00000"
    archiveAllowedNetworks := ["10.0.0.0/16"]
    directInputAllowedNetworks := ["10.0.0.0/16"]
    queryAllowedNetworks := ["10.0.0.0/16"]
    clusterType := ""
    dedicatedInputPem := ""
    directInputPem := ""
    hostname := ""
    isDefault := false
    isUnlocked := false
    region := ""
    initialArchiveAllowedNetworks := []
    initialDirectInputAllowedNetworks := []
    initialQueryAllowedNetworks := [] }

/-- The wait that follows the mutation of a block, when it has one. -/
def waitOf (r : Remote) (d : ResourceData) (k : StepKind) :
    Option (List Call → List Call × Except WaitError Unit) :=
  if hasWait k then
    some (waitForCloudProjectKubeReady r d.serviceName d.id (pendingOf k) ["READY"])
  else none

/-- A remote side that answers the first call with the identifier kube1, reports
INSTALLING at the next two calls and READY at the fourth, and answers every later
call under the identifier kube2. -/
def remoteOtherId : Remote :=
  { respond := fun tr _ =>
      if tr.length = 0 then .ok ⟨"kube1", ""⟩
      else if tr.length < 3 then .ok ⟨"kube1", "INSTALLING"⟩
      else if tr.length = 3 then .ok ⟨"kube1", "READY"⟩
      else .ok ⟨"kube2", "READY"⟩
    budget := fun _ => 10 }

/-- A remote side on which the first call, a mutation, is refused with an API error. -/
def remoteRefusing : Remote :=
  { respond := fun _ _ => .error (.api 403 "This call has not been granted")
    budget := fun _ => 10 }

/-! ## Facts about the version library -/

theorem splitOnChar_ne_nil (sep : Char) (l : List Char) : splitOnChar sep l ≠ [] := by
  cases l with
  | nil => simp [splitOnChar]
  | cons c cs =>
    simp only [splitOnChar]
    split
    · simp
    · split <;> simp

theorem splitOnChar_mem (sep : Char) (l : List Char) :
    ∀ p ∈ splitOnChar sep l, ∀ c ∈ p, c ∈ l := by
  induction l with
  | nil => intro p hp c hc; simp [splitOnChar] at hp; subst hp; simp at hc
  | cons a cs ih =>
    intro p hp c hc
    simp only [splitOnChar] at hp
    split at hp
    · rcases List.mem_cons.1 hp with h | h
      · subst h; simp at hc
      · exact List.mem_cons_of_mem _ (ih p h c hc)
    · split at hp
      · rename_i heq
        exact absurd heq (splitOnChar_ne_nil sep cs)
      · rename_i q qs heq
        rcases List.mem_cons.1 hp with h | h
        · subst h
          rcases List.mem_cons.1 hc with h1 | h1
          · subst h1; simp
          · exact List.mem_cons_of_mem _ (ih q (by rw [heq]; simp) c h1)
        · exact List.mem_cons_of_mem _ (ih p (by rw [heq]; exact List.mem_cons_of_mem _ h) c hc)

theorem ParseInt_range (cs : List Char) (v : Int) (h : ParseInt cs = (v, true)) :
    -(2 ^ 63) ≤ v ∧ v < 2 ^ 63 := by
  unfold ParseInt at h
  simp only at h
  split at h
  · simp at h
  · rename_i un _
    split at h
    · simp at h
    · split at h
      · simp at h
      · rename_i h1 h2
        simp only [Prod.mk.injEq, and_true] at h
        simp only [Bool.and_eq_true, Bool.not_eq_true', decide_eq_true_eq, not_and, not_le, not_lt] at h1 h2
        by_cases hn : headIs (fun c => c == '-') cs = true
        · have := h2 hn
          simp only [hn, if_true] at h
          omega
        · simp only [Bool.not_eq_true] at hn
          have := h1 hn
          simp only [hn] at h
          simp at h
          omega

theorem ParseInt_nonneg (cs : List Char) (v : Int) (hd : headIs (fun c => c == '-') cs = false)
    (h : ParseInt cs = (v, true)) : 0 ≤ v := by
  unfold ParseInt at h
  simp only [hd] at h
  split at h
  · simp at h
  · split at h
    · simp at h
    · simp at h
      omega

theorem parseSegments_spec (ss : List (List Char)) :
    ∀ ns, parseSegments ss = .ok ns →
      ns.length = ss.length ∧ ∀ x ∈ ns, ∃ s ∈ ss, ParseInt s = (x, true) := by
  induction ss with
  | nil => intro ns h; simp [parseSegments] at h; subst h; simp
  | cons s ss ih =>
    intro ns h
    simp only [parseSegments] at h
    split at h
    · simp at h
    · rename_i val hval
      split at h
      · simp at h
      · rename_i ms hms
        simp only [Except.ok.injEq] at h
        subst h
        obtain ⟨hl, hm⟩ := ih ms hms
        refine ⟨by simp [hl], ?_⟩
        intro x hx
        rcases List.mem_cons.1 hx with h1 | h1
        · subst h1; exact ⟨s, by simp, hval⟩
        · obtain ⟨t, ht, hp⟩ := hm x h1
          exact ⟨t, List.mem_cons_of_mem _ ht, hp⟩

/-- Every parsed version has at least three segments, each a non-negative int64. -/
theorem NewVersion_segments (s : String) (v : Version) (h : NewVersion s = .ok v) :
    3 ≤ v.segments.length ∧ ∀ x ∈ v.segments, 0 ≤ x ∧ x < 2 ^ 63 := by
  unfold NewVersion at h
  simp only at h
  split at h
  · simp at h
  · split at h
    · simp at h
    · split at h
      · simp at h
      · split at h
        · simp at h
        · rename_i segs hsegs
          simp only [Except.ok.injEq] at h
          subst h
          obtain ⟨_, hm⟩ := parseSegments_spec _ segs hsegs
          refine ⟨by simp; omega, ?_⟩
          intro x hx
          simp only [List.mem_append, List.mem_replicate] at hx
          rcases hx with hx | ⟨_, hx⟩
          · obtain ⟨t, ht, hp⟩ := hm x hx
            refine ⟨ParseInt_nonneg t x ?_ hp, (ParseInt_range t x hp).2⟩
            cases t with
            | nil => rfl
            | cons c cs =>
              have hc := splitOnChar_mem _ _ _ ht c (by simp)
              have hnum := (List.mem_takeWhile_imp hc)
              simp only [headIs]
              by_contra hcon
              simp at hcon
              subst hcon
              simp [isNumChar] at hnum
          · subst hx; simp

theorem compareSegments_minor_gt (a b : List Int) (x p q : Int)
    (ha0 : a[0]? = some x) (hb0 : b[0]? = some x) (ha1 : a[1]? = some p)
    (hb1 : b[1]? = some q) (hlt : q < p) : compareSegments a b = 1 := by
  match a, b with
  | a0 :: a1 :: _, b0 :: b1 :: _ =>
    simp at ha0 hb0 ha1 hb1
    subst ha0 hb0 ha1 hb1
    have h1 : ¬ (a1 = b1) := by omega
    have h2 : ¬ (a1 < b1) := by omega
    simp [compareSegments, h1, h2]
  | [], _ => simp at ha0
  | [_], _ => simp at ha1
  | _ :: _ :: _, [] => simp at hb0
  | _ :: _ :: _, [_] => simp at hb1

/-- A version whose major equals and whose minor exceeds that of another is not less. -/
theorem not_LessThan_of_minor_gt (v o : Version) (x p q : Int)
    (hv0 : v.segments[0]? = some x) (ho0 : o.segments[0]? = some x)
    (hv1 : v.segments[1]? = some p) (ho1 : o.segments[1]? = some q) (hlt : q < p) :
    v.LessThan o = false := by
  have hne : v.segments ≠ o.segments := by
    intro h
    rw [h, ho1] at hv1
    simp at hv1
    omega
  simp only [Version.LessThan, Version.Compare, hne, if_false,
    compareSegments_minor_gt _ _ x p q hv0 ho0 hv1 ho1 hlt]
  split <;> simp

theorem wrapInt64_of_range (x : Int) (h1 : -(2 ^ 63) ≤ x) (h2 : x < 2 ^ 63) :
    wrapInt64 x = x := by
  unfold wrapInt64
  omega

theorem wrapInt64_neg_of_max (x : Int) (h : x = 2 ^ 63) : wrapInt64 x < 0 := by
  subst h
  decide

/-! ## Facts about the waits and the steps -/

theorem WaitForState_trace (pending target : List String) (refresh : Refresh) (g : Call)
    (hg : ∀ tr, (refresh tr).1 = tr ++ [g]) :
    ∀ fuel tr, ∃ k, k ≤ fuel ∧
      (WaitForState pending target refresh fuel tr).1 = tr ++ List.replicate k g := by
  intro fuel
  induction fuel with
  | zero => intro tr; exact ⟨0, le_refl _, by simp [WaitForState]⟩
  | succ n ih =>
    intro tr
    have h1 := hg tr
    simp only [WaitForState]
    rcases hr : refresh tr with ⟨tr1, res⟩
    rw [hr] at h1
    simp only at h1
    subst h1
    have one : ∃ k, k ≤ n + 1 ∧ tr ++ [g] = tr ++ List.replicate k g :=
      ⟨1, by omega, by simp⟩
    have more : ∃ k, k ≤ n + 1 ∧
        (WaitForState pending target refresh n (tr ++ [g])).1 = tr ++ List.replicate k g := by
      obtain ⟨k, hk, he⟩ := ih (tr ++ [g])
      exact ⟨k + 1, by omega, by rw [he]; simp [List.replicate_succ]⟩
    cases res with
    | error e => exact one
    | ok st =>
      simp only
      split
      · exact one
      · split
        · exact more
        · split
          · exact one
          · exact more

/-- A wait that succeeds made at least one fetch, and its last fetch gave a target status. -/
theorem WaitForState_ok (pending target : List String) (refresh : Refresh) (g : Call)
    (hg : ∀ tr, (refresh tr).1 = tr ++ [g]) :
    ∀ fuel tr tr1, WaitForState pending target refresh fuel tr = (tr1, .ok ()) →
      ∃ k st, k < fuel ∧ tr1 = tr ++ List.replicate (k + 1) g ∧
        (refresh (tr ++ List.replicate k g)).2 = .ok st ∧ target.contains st = true := by
  intro fuel
  induction fuel with
  | zero => intro tr tr1 h; simp [WaitForState] at h
  | succ n ih =>
    intro tr tr1 h
    have h1 := hg tr
    simp only [WaitForState] at h
    rcases hr : refresh tr with ⟨tr2, res⟩
    rw [hr] at h1 h
    simp only at h1
    subst h1
    have more : WaitForState pending target refresh n (tr ++ [g]) = (tr1, .ok ()) →
        ∃ k st, k < n + 1 ∧ tr1 = tr ++ List.replicate (k + 1) g ∧
        (refresh (tr ++ List.replicate k g)).2 = .ok st ∧ target.contains st = true := by
      intro hw
      obtain ⟨k, st, hk, he, hs, ht⟩ := ih (tr ++ [g]) tr1 hw
      refine ⟨k + 1, st, by omega, ?_, ?_, ht⟩
      · rw [he]; simp [List.replicate_succ]
      · rw [← hs]; simp [List.replicate_succ]
    cases res with
    | error e => simp at h
    | ok st =>
      simp only at h
      split at h
      · rename_i ht
        simp only [Prod.mk.injEq, and_true] at h
        exact ⟨0, st, by omega, by simp [h], by simp [hr], ht⟩
      · split at h
        · exact more h
        · split at h
          · simp at h
          · exact more h

theorem refreshReady_trace (r : Remote) (s i : String) (tr : List Call) :
    (refreshReady r s i tr).1 = tr ++ [kubeGet s i] := by
  unfold refreshReady Remote.exec
  split <;> rename_i h <;> simp only [Prod.mk.injEq] at h <;> simp [h.1]

theorem refreshDeleted_trace (r : Remote) (s i : String) (tr : List Call) :
    (refreshDeleted r s i tr).1 = tr ++ [kubeGet s i] := by
  unfold refreshDeleted Remote.exec
  split <;> rename_i h <;> simp only [Prod.mk.injEq] at h
  · split <;> simp [h.1]
  · simp [h.1]
  · simp [h.1]

theorem waitForCloudProjectKubeReady_trace (r : Remote) (s i : String)
    (pending target : List String) (tr : List Call) :
    ∃ k, (waitForCloudProjectKubeReady r s i pending target tr).1
      = tr ++ List.replicate k (kubeGet s i) := by
  obtain ⟨k, _, h⟩ := WaitForState_trace pending target (refreshReady r s i) (kubeGet s i)
    (refreshReady_trace r s i) (r.budget tr) tr
  exact ⟨k, h⟩

/-- Trace of a mutation with its wait: the call, then only status fetches. -/
theorem mutateThenWait_trace (r : Remote) (kubeId : String) (c g : Call)
    (wait : Option (List Call → List Call × Except WaitError Unit))
    (hw : ∀ w, wait = some w → ∀ tr, ∃ k, (w tr).1 = tr ++ List.replicate k g)
    (tr : List Call) :
    ∃ k, (mutateThenWait r kubeId c wait tr).1 = tr ++ c :: List.replicate k g := by
  unfold mutateThenWait Remote.exec
  cases r.respond tr c with
  | error e => exact ⟨0, by simp⟩
  | ok res =>
    cases wait with
    | none => exact ⟨0, by simp⟩
    | some w =>
      obtain ⟨k, hk⟩ := hw w rfl (tr ++ [c])
      refine ⟨k, ?_⟩
      simp only
      rcases hwr : w (tr ++ [c]) with ⟨tr2, res2⟩
      rw [hwr] at hk
      simp only at hk
      subst hk
      cases res2 <;> simp

/-- A mutation with its wait fails only with the client error or the wait error. -/
theorem mutateThenWait_error (r : Remote) (kubeId : String) (c : Call)
    (wait : Option (List Call → List Call × Except WaitError Unit)) (tr : List Call)
    (e : UpdateError) (h : (mutateThenWait r kubeId c wait tr).2 = .error e) :
    (∃ ce, e = .client ce) ∨ (∃ we, e = .waitReady kubeId we) := by
  unfold mutateThenWait Remote.exec at h
  cases hr : r.respond tr c with
  | error ce =>
    rw [hr] at h
    simp only [Except.error.injEq] at h
    exact Or.inl ⟨ce, h.symm⟩
  | ok res =>
    rw [hr] at h
    cases wait with
    | none => simp at h
    | some w =>
      simp only at h
      rcases hwr : w (tr ++ [c]) with ⟨tr2, res2⟩
      rw [hwr] at h
      cases res2 with
      | error we =>
        simp only [Except.error.injEq] at h
        exact Or.inr ⟨we, h.symm⟩
      | ok u => simp at h

/-- Two different parse results come from two different texts. -/
theorem ne_of_NewVersion_ne (a b : String) (va vb : Version)
    (ha : NewVersion a = .ok va) (hb : NewVersion b = .ok vb) (h : va ≠ vb) : a ≠ b := by
  intro hab
  subst hab
  rw [ha] at hb
  simp only [Except.ok.injEq] at hb
  exact h hb

/-! ## Version policy (C1 to C5) -/

/-- C1: when both version texts parse, both majors are 1 and the new minor is the old
minor plus one, the checks of the version block pass, and the version step then
submits the upgrade POST as its next call and can only fail with the error of that
call or of the wait, not with an error of the checks; patch segments, prerelease and
metadata play no part. -/
theorem C1_single_minor_step_accepted (oldValue newValue : String)
    (oldVersion newVersion : Version) (m : Int)
    (ho : NewVersion oldValue = .ok oldVersion) (hn : NewVersion newValue = .ok newVersion)
    (ho0 : oldVersion.Segments[0]? = some 1) (hn0 : newVersion.Segments[0]? = some 1)
    (ho1 : oldVersion.Segments[1]? = some m) (hn1 : newVersion.Segments[1]? = some (m + 1)) :
    validateVersionChange oldValue newValue = .ok () ∧
    ∀ (r : Remote) (d : ResourceData) (tr : List Call),
      d.version = ⟨oldValue, newValue⟩ →
      (∃ rest, (versionStep r d tr).1 = tr ++ upgradeCall d :: rest) ∧
      ∀ e, (versionStep r d tr).2 = .error e →
        (∃ ce, e = .client ce) ∨ (∃ we, e = .waitReady d.id we) := by
  have hso := NewVersion_segments _ _ ho
  have hsn := NewVersion_segments _ _ hn
  simp only [Version.Segments] at ho0 hn0 ho1 hn1
  have hm1 : m + 1 ∈ newVersion.segments := List.getElem?_mem hn1
  have hm : m ∈ oldVersion.segments := List.getElem?_mem ho1
  have hr1 := hsn.2 _ hm1
  have hr0 := hso.2 _ hm
  have hless : newVersion.LessThan oldVersion = false :=
    not_LessThan_of_minor_gt _ _ 1 (m + 1) m hn0 ho0 hn1 ho1 (by omega)
  have hlen : ¬ (oldVersion.segments.length < 2 ∨ newVersion.segments.length < 2) := by omega
  have hval : validateVersionChange oldValue newValue = .ok () := by
    simp [validateVersionChange, ho, hn, Version.Segments, ho0, hn0, ho1, hn1, hless, hlen,
      wrapInt64_of_range (m + 1) (by omega) (by omega)]
  refine ⟨hval, ?_⟩
  intro r d tr hd
  have hne : oldVersion ≠ newVersion := by
    intro h
    rw [h, hn1] at ho1
    simp at ho1
  have hchange : d.version.HasChange = true := by
    simp [StringChange.HasChange, hd, ne_of_NewVersion_ne _ _ _ _ ho hn hne]
  have hstep : versionStep r d tr = mutateThenWait r d.id (upgradeCall d)
      (some (waitForCloudProjectKubeReady r d.serviceName d.id
        ["UPDATING", "REDEPLOYING", "RESETTING"] ["READY"])) tr := by
    simp only [versionStep, hchange, if_true]
    rw [hd]
    simp only [hval]
  rw [hstep]
  constructor
  · obtain ⟨k, hk⟩ := mutateThenWait_trace r d.id (upgradeCall d) (kubeGet d.serviceName d.id)
      (some (waitForCloudProjectKubeReady r d.serviceName d.id
        ["UPDATING", "REDEPLOYING", "RESETTING"] ["READY"]))
      (by
        intro w hw tr2
        simp only [Option.some.injEq] at hw
        subst hw
        exact waitForCloudProjectKubeReady_trace _ _ _ _ _ _) tr
    exact ⟨_, hk⟩
  · intro e he
    exact mutateThenWait_error _ _ _ _ _ _ he

/-- Witness of C1 at "1.24" to "1.25". -/
theorem C1_single_minor_step_accepted_witness :
    validateVersionChange "1.24" "1.25" = .ok () :=
  (C1_single_minor_step_accepted "1.24" "1.25"
    ⟨[1, 24, 0], "", "", 2, "1.24"⟩ ⟨[1, 25, 0], "", "", 2, "1.25"⟩ 24
    (by decide) (by decide) (by decide) (by decide) (by decide) (by decide)).1

/-- The version step returns the error of the checks without any call. -/
theorem versionStep_of_check_error (r : Remote) (d : ResourceData) (tr : List Call)
    (e : UpdateError) (hchange : d.version.old ≠ d.version.new)
    (hval : validateVersionChange d.version.old d.version.new = .error e) :
    versionStep r d tr = (tr, .error e) := by
  simp [versionStep, StringChange.HasChange, hchange, hval]

/-- C2: when both version texts parse with major 1, the new version is not less than
the old one and the new minor is not the old minor plus one, the checks fail with the
next-minor-only error and the version step returns it with the trace unchanged (no
upgrade request); this holds for a skipped minor and for an unchanged minor. -/
theorem C2_non_sequential_minor_rejected (oldValue newValue : String)
    (oldVersion newVersion : Version) (o1 n1 : Int)
    (ho : NewVersion oldValue = .ok oldVersion) (hn : NewVersion newValue = .ok newVersion)
    (ho0 : oldVersion.Segments[0]? = some 1) (hn0 : newVersion.Segments[0]? = some 1)
    (hge : newVersion.LessThan oldVersion = false)
    (ho1 : oldVersion.Segments[1]? = some o1) (hn1 : newVersion.Segments[1]? = some n1)
    (hskip : n1 ≠ o1 + 1) :
    validateVersionChange oldValue newValue = .error (.nextMinorOnly oldValue newValue) ∧
    ∀ (r : Remote) (d : ResourceData) (tr : List Call),
      d.version = ⟨oldValue, newValue⟩ → oldValue ≠ newValue →
      versionStep r d tr = (tr, .error (.nextMinorOnly oldValue newValue)) := by
  have hso := NewVersion_segments _ _ ho
  have hsn := NewVersion_segments _ _ hn
  simp only [Version.Segments] at ho0 hn0 ho1 hn1
  have hr1 := hsn.2 _ (List.getElem?_mem hn1)
  have hr0 := hso.2 _ (List.getElem?_mem ho1)
  have hlen : ¬ (oldVersion.segments.length < 2 ∨ newVersion.segments.length < 2) := by omega
  have hwrap : ¬ (wrapInt64 (o1 + 1) = n1) := by
    by_cases hmax : o1 + 1 = 2 ^ 63
    · have := wrapInt64_neg_of_max _ hmax
      omega
    · rw [wrapInt64_of_range (o1 + 1) (by omega) (by omega)]
      omega
  have hval : validateVersionChange oldValue newValue
      = .error (.nextMinorOnly oldValue newValue) := by
    simp [validateVersionChange, ho, hn, Version.Segments, ho0, hn0, ho1, hn1, hge, hlen, hwrap]
  refine ⟨hval, ?_⟩
  intro r d tr hd hne
  apply versionStep_of_check_error
  · rw [hd]; exact hne
  · rw [hd]; exact hval

/-- Witness of C2: a skipped minor, "1.24" to "1.26", and a patch-only
change, "1.24.1" to "1.24.2". -/
theorem C2_non_sequential_minor_rejected_witness :
    validateVersionChange "1.24" "1.26" = .error (.nextMinorOnly "1.24" "1.26") ∧
    validateVersionChange "1.24.1" "1.24.2" = .error (.nextMinorOnly "1.24.1" "1.24.2") :=
  ⟨(C2_non_sequential_minor_rejected "1.24" "1.26"
      ⟨[1, 24, 0], "", "", 2, "1.24"⟩ ⟨[1, 26, 0], "", "", 2, "1.26"⟩ 24 26
      (by decide) (by decide) (by decide) (by decide) (by decide) (by decide) (by decide)
      (by decide)).1,
   (C2_non_sequential_minor_rejected "1.24.1" "1.24.2"
      ⟨[1, 24, 1], "", "", 3, "1.24.1"⟩ ⟨[1, 24, 2], "", "", 3, "1.24.2"⟩ 24 24
      (by decide) (by decide) (by decide) (by decide) (by decide) (by decide) (by decide)
      (by decide)).1⟩

/-- C3: when both version texts parse with major 1 and the new version is less than
the old one, the checks fail with the downgrade error, not with the next-minor-only
error, and the version step returns it with the trace unchanged. -/
theorem C3_downgrade_rejected (oldValue newValue : String)
    (oldVersion newVersion : Version)
    (ho : NewVersion oldValue = .ok oldVersion) (hn : NewVersion newValue = .ok newVersion)
    (ho0 : oldVersion.Segments[0]? = some 1) (hn0 : newVersion.Segments[0]? = some 1)
    (hlt : newVersion.LessThan oldVersion = true) :
    validateVersionChange oldValue newValue = .error (.downgrade oldValue newValue) ∧
    validateVersionChange oldValue newValue ≠ .error (.nextMinorOnly oldValue newValue) ∧
    ∀ (r : Remote) (d : ResourceData) (tr : List Call),
      d.version = ⟨oldValue, newValue⟩ → oldValue ≠ newValue →
      versionStep r d tr = (tr, .error (.downgrade oldValue newValue)) := by
  have hso := NewVersion_segments _ _ ho
  have hsn := NewVersion_segments _ _ hn
  simp only [Version.Segments] at ho0 hn0
  have hlen : ¬ (oldVersion.segments.length < 2 ∨ newVersion.segments.length < 2) := by omega
  have hval : validateVersionChange oldValue newValue
      = .error (.downgrade oldValue newValue) := by
    simp [validateVersionChange, ho, hn, Version.Segments, ho0, hn0, hlt, hlen]
  refine ⟨hval, by rw [hval]; simp, ?_⟩
  intro r d tr hd hne
  apply versionStep_of_check_error
  · rw [hd]; exact hne
  · rw [hd]; exact hval

/-- Witness of C3 at "1.25" to "1.24". -/
theorem C3_downgrade_rejected_witness :
    validateVersionChange "1.25" "1.24" = .error (.downgrade "1.25" "1.24") :=
  (C3_downgrade_rejected "1.25" "1.24"
    ⟨[1, 25, 0], "", "", 2, "1.25"⟩ ⟨[1, 24, 0], "", "", 2, "1.24"⟩
    (by decide) (by decide) (by decide) (by decide) (by decide)).1

/-- C4: when both version texts parse, each written with a major and a minor
component, and the major of the old or of the new one is not 1, the checks fail with
the unsupported-major error, whatever the order of the two versions and their minors,
and the version step returns it with the trace unchanged. -/
theorem C4_unsupported_major_rejected (oldValue newValue : String)
    (oldVersion newVersion : Version) (oldMajor newMajor : Int)
    (ho : NewVersion oldValue = .ok oldVersion) (hn : NewVersion newValue = .ok newVersion)
    (_hominor : 2 ≤ oldVersion.si) (_hnminor : 2 ≤ newVersion.si)
    (ho0 : oldVersion.Segments[0]? = some oldMajor)
    (hn0 : newVersion.Segments[0]? = some newMajor)
    (hmajor : oldMajor ≠ 1 ∨ newMajor ≠ 1) :
    validateVersionChange oldValue newValue = .error .unsupportedMajor ∧
    ∀ (r : Remote) (d : ResourceData) (tr : List Call),
      d.version = ⟨oldValue, newValue⟩ → oldValue ≠ newValue →
      versionStep r d tr = (tr, .error .unsupportedMajor) := by
  simp only [Version.Segments] at ho0 hn0
  have hval : validateVersionChange oldValue newValue = .error .unsupportedMajor := by
    simp only [validateVersionChange, ho, hn, Version.Segments, ho0, hn0]
    by_cases h1 : oldMajor = 1
    · have h2 : newMajor ≠ 1 := by
        rcases hmajor with h | h
        · exact absurd h1 h
        · exact h
      simp [h1, h2]
    · simp [h1]
  refine ⟨hval, ?_⟩
  intro r d tr hd hne
  apply versionStep_of_check_error
  · rw [hd]; exact hne
  · rw [hd]; exact hval

/-- Witness of C4 at "2.0" to "2.1" and at "1.30" to "2.0". -/
theorem C4_unsupported_major_rejected_witness :
    validateVersionChange "2.0" "2.1" = .error .unsupportedMajor ∧
    validateVersionChange "1.30" "2.0" = .error .unsupportedMajor :=
  ⟨(C4_unsupported_major_rejected "2.0" "2.1"
      ⟨[2, 0, 0], "", "", 2, "2.0"⟩ ⟨[2, 1, 0], "", "", 2, "2.1"⟩ 2 2
      (by decide) (by decide) (by decide) (by decide) (by decide) (by decide) (by decide)).1,
   (C4_unsupported_major_rejected "1.30" "2.0"
      ⟨[1, 30, 0], "", "", 2, "1.30"⟩ ⟨[2, 0, 0], "", "", 2, "2.0"⟩ 1 2
      (by decide) (by decide) (by decide) (by decide) (by decide) (by decide) (by decide)).1⟩

/-- Counterexample to C5: "2" is written with a major only, and the checks on "2" to
"2.1" fail with the unsupported-major error and with neither malformed-version error:
the major is tested before the number of segments. -/
theorem C5_counterexample :
    NewVersion "2" = .ok ⟨[2, 0, 0], "", "", 1, "2"⟩ ∧
    validateVersionChange "2" "2.1" = .error .unsupportedMajor ∧
    validateVersionChange "2" "2.1" ≠ .error .majorMinorOnly ∧
    validateVersionChange "2" "2.1" ≠ .error (.notSemver "2") := by
  decide

/-- C5 as amended: when the old text does not parse the checks fail with the
malformed-version error on the old text; when the old one parses and the new one does
not, with that error on the new text; no major is looked at before. When both parse
and one is written without a minor, a major other than 1 gives the unsupported-major
error. In each case the version step returns the error with the trace unchanged. -/
theorem C5_malformed_version_rejected (oldValue newValue : String) :
    ((∃ e, NewVersion oldValue = .error e) →
      validateVersionChange oldValue newValue = .error (.notSemver oldValue)) ∧
    ((∃ v, NewVersion oldValue = .ok v) → (∃ e, NewVersion newValue = .error e) →
      validateVersionChange oldValue newValue = .error (.notSemver newValue)) ∧
    (∀ oldVersion newVersion, NewVersion oldValue = .ok oldVersion →
      NewVersion newValue = .ok newVersion → (oldVersion.si < 2 ∨ newVersion.si < 2) →
      (oldVersion.Segments[0]? ≠ some 1 ∨ newVersion.Segments[0]? ≠ some 1) →
      validateVersionChange oldValue newValue = .error .unsupportedMajor) ∧
    (∀ (r : Remote) (d : ResourceData) (tr : List Call) (e : UpdateError),
      d.version = ⟨oldValue, newValue⟩ → oldValue ≠ newValue →
      validateVersionChange oldValue newValue = .error e →
      versionStep r d tr = (tr, .error e)) := by
  refine ⟨?_, ?_, ?_, ?_⟩
  · rintro ⟨e, he⟩
    simp [validateVersionChange, he]
  · rintro ⟨v, hv⟩ ⟨e, he⟩
    simp [validateVersionChange, hv, he]
  · intro oldVersion newVersion ho hn _ hmajor
    have hso := NewVersion_segments _ _ ho
    have hsn := NewVersion_segments _ _ hn
    have hlo : 0 < oldVersion.segments.length := by omega
    have hln : 0 < newVersion.segments.length := by omega
    have ha := List.getElem?_eq_getElem hlo
    have hb := List.getElem?_eq_getElem hln
    simp only [Version.Segments, ha, hb, ne_eq, Option.some.injEq] at hmajor
    simp only [validateVersionChange, ho, hn, Version.Segments, ha, hb]
    by_cases h1 : oldVersion.segments[0] = 1
    · have h2 : newVersion.segments[0] ≠ 1 := by
        rcases hmajor with h | h
        · exact absurd h1 h
        · exact h
      simp [h1, h2]
    · simp [h1]
  · intro r d tr e hd hne hval
    apply versionStep_of_check_error
    · rw [hd]; exact hne
    · rw [hd]; exact hval

/-- Witness of C5 as amended: "1.x" does not parse, and "2" to "2.1" has a major
other than 1. -/
theorem C5_malformed_version_rejected_witness :
    validateVersionChange "1.x" "1.25" = .error (.notSemver "1.x") ∧
    validateVersionChange "1.24" "1.x" = .error (.notSemver "1.x") ∧
    validateVersionChange "2" "2.1" = .error .unsupportedMajor :=
  ⟨(C5_malformed_version_rejected "1.x" "1.25").1 ⟨.malformed "1.x", by decide⟩,
   (C5_malformed_version_rejected "1.24" "1.x").2.1
     ⟨⟨[1, 24, 0], "", "", 2, "1.24"⟩, by decide⟩ ⟨.malformed "1.x", by decide⟩,
   (C5_malformed_version_rejected "2" "2.1").2.2.1
     ⟨[2, 0, 0], "", "", 1, "2"⟩ ⟨[2, 1, 0], "", "", 2, "2.1"⟩
     (by decide) (by decide) (by decide) (by decide)⟩

/-- The test on the number of segments is never met: a text written with a major only
is padded to three segments, and "1" to "1.1" passes the checks. -/
theorem majorMinorOnly_unreachable (oldValue newValue : String) :
    validateVersionChange oldValue newValue ≠ .error .majorMinorOnly := by
  intro h
  unfold validateVersionChange at h
  split at h
  · simp at h
  · rename_i oldVersion ho
    split at h
    · simp at h
    · rename_i newVersion hn
      have hso := NewVersion_segments _ _ ho
      have hsn := NewVersion_segments _ _ hn
      have hlen : ¬ (oldVersion.segments.length < 2 ∨ newVersion.segments.length < 2) := by
        omega
      simp only [Version.Segments] at h
      split at h
      · simp at h
      · split at h
        · simp at h
        · split at h
          · simp at h
          · split at h
            · simp at h
            · split at h
              · rename_i hl
                simp at hl
                omega
              · split at h
                · simp at h
                · split at h
                  · split at h <;> simp at h
                  · simp at h

theorem minorless_old_version_accepted : validateVersionChange "1" "1.1" = .ok () := by
  decide

/-! ## Facts about the sequence of steps -/

theorem callOf_isMutation (d : ResourceData) (k : StepKind) :
    (callOf d k).isMutation = true := by
  cases k <;> rfl

theorem kubeGet_not_isMutation (s i : String) : (kubeGet s i).isMutation = false := rfl

theorem callOf_injective (d : ResourceData) (j k : StepKind) (h : callOf d j = callOf d k) :
    j = k := by
  cases j <;> cases k <;> first
    | rfl
    | (exfalso
       simp only [callOf, customizationCall, upgradeCall, updatePolicyCall, renameCall,
         pncCall, Call.mk.injEq] at h
       simp at h)

theorem callOf_ne_kubeGet (d : ResourceData) (k : StepKind) (s i : String) :
    callOf d k ≠ kubeGet s i := by
  intro h
  have h1 := callOf_isMutation d k
  rw [h, kubeGet_not_isMutation] at h1
  exact Bool.noConfusion h1

/-- What a block does from a trace: it is skipped (field unchanged, no call, success),
refused (the version checks fail, no call, their error), or issued (its mutation is
the next call, followed only by status fetches). -/
theorem stepOf_cases (r : Remote) (d : ResourceData) (k : StepKind) (tr : List Call) :
    (changedOf d k = false ∧ stepOf r d k tr = (tr, .ok ())) ∨
    (changedOf d k = true ∧ k = .version ∧
      ∃ e, validateVersionChange d.version.old d.version.new = .error e ∧
        stepOf r d k tr = (tr, .error e)) ∨
    (changedOf d k = true ∧
      (k = .version → validateVersionChange d.version.old d.version.new = .ok ()) ∧
      ∃ n, (stepOf r d k tr).1
        = tr ++ callOf d k :: List.replicate n (kubeGet d.serviceName d.id)) := by
  have hwait : ∀ (p t : List String) w,
      some (waitForCloudProjectKubeReady r d.serviceName d.id p t) = some w →
      ∀ tr, ∃ n, (w tr).1 = tr ++ List.replicate n (kubeGet d.serviceName d.id) := by
    intro p t w hw tr2
    simp only [Option.some.injEq] at hw
    subst hw
    exact waitForCloudProjectKubeReady_trace _ _ _ _ _ _
  have hnone : ∀ w, (none : Option (List Call → List Call × Except WaitError Unit)) = some w →
      ∀ tr, ∃ n, (w tr).1 = tr ++ List.replicate n (kubeGet d.serviceName d.id) := by
    intro w hw
    simp at hw
  cases hc : changedOf d k with
  | false =>
    left
    refine ⟨rfl, ?_⟩
    cases k <;> simp only [changedOf] at hc <;>
      simp [stepOf, customizationStep, versionStep, updatePolicyStep, renameStep, pncStep, hc]
  | true =>
    right
    cases k with
    | customization =>
      right
      simp only [changedOf] at hc
      refine ⟨rfl, by simp, ?_⟩
      simp only [stepOf, customizationStep, hc, if_true, callOf]
      exact mutateThenWait_trace _ _ _ _ _ (hwait _ _) tr
    | version =>
      simp only [changedOf] at hc
      cases hv : validateVersionChange d.version.old d.version.new with
      | error e =>
        left
        refine ⟨rfl, rfl, e, rfl, ?_⟩
        simp [stepOf, versionStep, hc, hv]
      | ok u =>
        right
        refine ⟨rfl, fun _ => rfl, ?_⟩
        simp only [stepOf, versionStep, hc, if_true, hv, callOf]
        exact mutateThenWait_trace _ _ _ _ _ (hwait _ _) tr
    | updatePolicy =>
      right
      simp only [changedOf] at hc
      refine ⟨rfl, by simp, ?_⟩
      simp only [stepOf, updatePolicyStep, hc, if_true, callOf]
      exact mutateThenWait_trace _ _ _ _ _ hnone tr
    | rename =>
      right
      simp only [changedOf] at hc
      refine ⟨rfl, by simp, ?_⟩
      simp only [stepOf, renameStep, hc, if_true, callOf]
      exact mutateThenWait_trace _ _ _ _ _ hnone tr
    | pnc =>
      right
      simp only [changedOf] at hc
      refine ⟨rfl, by simp, ?_⟩
      simp only [stepOf, pncStep, hc, if_true, callOf]
      exact mutateThenWait_trace _ _ _ _ _ (hwait _ _) tr

theorem runSteps_cons_error (r : Remote) (d : ResourceData) (k : StepKind)
    (ks : List StepKind) (tr tr1 : List Call) (e : UpdateError)
    (h : stepOf r d k tr = (tr1, .error e)) : runSteps r d (k :: ks) tr = (tr1, .error e) := by
  simp [runSteps, h, andThen]

theorem runSteps_cons_ok (r : Remote) (d : ResourceData) (k : StepKind)
    (ks : List StepKind) (tr tr1 : List Call)
    (h : stepOf r d k tr = (tr1, .ok ())) :
    runSteps r d (k :: ks) tr = runSteps r d ks tr1 := by
  simp [runSteps, h, andThen]

theorem runSteps_append_ok (r : Remote) (d : ResourceData) (before after : List StepKind) :
    ∀ (tr tr1 : List Call), runSteps r d before tr = (tr1, .ok ()) →
      runSteps r d (before ++ after) tr = runSteps r d after tr1 := by
  induction before with
  | nil =>
    intro tr tr1 h
    simp only [runSteps, Prod.mk.injEq, and_true] at h
    subst h
    rfl
  | cons k ks ih =>
    intro tr tr1 h
    rcases hs : stepOf r d k tr with ⟨tr2, res⟩
    cases res with
    | error e =>
      rw [runSteps_cons_error r d k ks tr tr2 e hs] at h
      simp at h
    | ok u =>
      cases u
      rw [runSteps_cons_ok r d k ks tr tr2 hs] at h
      rw [List.cons_append, runSteps_cons_ok r d k _ tr tr2 hs]
      exact ih tr2 tr1 h

/-- The update is the run of the five blocks in the order of the source. -/
theorem update_eq_runSteps (r : Remote) (d : ResourceData) :
    resourceCloudProjectKubeUpdate r d = runSteps r d updateOrder [] := by
  simp only [resourceCloudProjectKubeUpdate, updateOrder, runSteps, stepOf]
  rcases customizationStep r d [] with ⟨t1, _ | ⟨⟨⟩⟩⟩
  · rfl
  · simp only [andThen]
    rcases versionStep r d t1 with ⟨t2, _ | ⟨⟨⟩⟩⟩
    · rfl
    · simp only [andThen]
      rcases updatePolicyStep r d t2 with ⟨t3, _ | ⟨⟨⟩⟩⟩
      · rfl
      · simp only [andThen]
        rcases renameStep r d t3 with ⟨t4, _ | ⟨⟨⟩⟩⟩
        · rfl
        · simp only [andThen]
          rcases pncStep r d t4 with ⟨t5, _ | ⟨⟨⟩⟩⟩ <;> rfl

theorem append_eq_split {α : Type} (xs ys pre post : List α) (m : α)
    (h : xs ++ ys = pre ++ m :: post) :
    (∃ rest, xs = pre ++ m :: rest) ∨ (∃ mid, pre = xs ++ mid ∧ ys = mid ++ m :: post) := by
  rcases List.append_eq_append_iff.1 h with ⟨a, h1, h2⟩ | ⟨c, h1, h2⟩
  · exact Or.inr ⟨a, h1, h2⟩
  · cases c with
    | nil =>
      right
      refine ⟨[], by simpa using h1.symm, by simpa using h2.symm⟩
    | cons x c =>
      left
      simp only [List.cons_append, List.cons.injEq] at h2
      exact ⟨c, by rw [h1, h2.1]⟩

theorem issued_head {α : Type} (c g m : α) (n : Nat) (pre rest : List α)
    (h : c :: List.replicate n g = pre ++ m :: rest) (hm : m ≠ g) : pre = [] ∧ m = c := by
  cases pre with
  | nil =>
    simp only [List.nil_append, List.cons.injEq] at h
    exact ⟨rfl, h.1.symm⟩
  | cons p ps =>
    exfalso
    simp only [List.cons_append, List.cons.injEq] at h
    have hmem : m ∈ List.replicate n g := by
      rw [h.2]
      simp
    exact hm (List.eq_of_mem_replicate hmem)

theorem filter_isMutation_issued (d : ResourceData) (k : StepKind) (n : Nat) (s i : String) :
    (callOf d k :: List.replicate n (kubeGet s i)).filter Call.isMutation = [callOf d k] := by
  rw [List.filter_cons_of_pos (callOf_isMutation d k)]
  congr 1
  apply List.filter_eq_nil_iff.2
  intro c hc
  rw [List.eq_of_mem_replicate hc]
  simp [kubeGet_not_isMutation]

/-- The trace of a run extends the trace it starts from; its mutation calls are a
prefix of the planned ones, and all of them when the run succeeds; its other calls are
status fetches. -/
theorem runSteps_trace (r : Remote) (d : ResourceData) (ks : List StepKind) :
    ∀ tr, ∃ ext, (runSteps r d ks tr).1 = tr ++ ext ∧
      ext.filter Call.isMutation <+: plannedMutations d ks ∧
      ((runSteps r d ks tr).2 = .ok () →
        ext.filter Call.isMutation = plannedMutations d ks) ∧
      ∀ c ∈ ext, c.isMutation = false → c = kubeGet d.serviceName d.id := by
  induction ks with
  | nil =>
    intro tr
    exact ⟨[], by simp [runSteps], by simp [plannedMutations], by simp [plannedMutations],
      by simp⟩
  | cons k ks ih =>
    intro tr
    rcases stepOf_cases r d k tr with ⟨hc, hs⟩ | ⟨hc, _, e, _, hs⟩ | ⟨hc, _, n, hn⟩
    · obtain ⟨ext, h1, h2, h3, h4⟩ := ih tr
      rw [runSteps_cons_ok r d k ks tr tr hs]
      have hp : plannedMutations d (k :: ks) = plannedMutations d ks := by
        simp [plannedMutations, List.filter_cons, hc]
      rw [hp]
      exact ⟨ext, h1, h2, h3, h4⟩
    · rw [runSteps_cons_error r d k ks tr tr e hs]
      exact ⟨[], by simp, by simp, by simp, by simp⟩
    · have hp : plannedMutations d (k :: ks) = callOf d k :: plannedMutations d ks := by
        simp [plannedMutations, List.filter_cons, hc]
      rcases hs : stepOf r d k tr with ⟨tr1, res⟩
      rw [hs] at hn
      simp only at hn
      subst hn
      have hget : ∀ c ∈ callOf d k :: List.replicate n (kubeGet d.serviceName d.id),
          c.isMutation = false → c = kubeGet d.serviceName d.id := by
        intro c hcm hmut
        rcases List.mem_cons.1 hcm with h | h
        · rw [h, callOf_isMutation] at hmut
          exact Bool.noConfusion hmut
        · exact List.eq_of_mem_replicate h
      cases res with
      | error e =>
        rw [runSteps_cons_error r d k ks tr _ e hs]
        refine ⟨callOf d k :: List.replicate n (kubeGet d.serviceName d.id), rfl, ?_, ?_, hget⟩
        · rw [filter_isMutation_issued, hp]
          simp
        · intro h
          simp at h
      | ok u =>
        cases u
        rw [runSteps_cons_ok r d k ks tr _ hs]
        obtain ⟨ext, h1, h2, h3, h4⟩ := ih (tr ++ callOf d k ::
          List.replicate n (kubeGet d.serviceName d.id))
        refine ⟨callOf d k :: List.replicate n (kubeGet d.serviceName d.id) ++ ext, ?_, ?_, ?_,
          ?_⟩
        · rw [h1]
          simp
        · rw [List.filter_append, filter_isMutation_issued, hp]
          simpa using h2
        · intro hok
          rw [List.filter_append, filter_isMutation_issued, hp, h3 hok]
          rfl
        · intro c hcm hmut
          rcases List.mem_append.1 hcm with h | h
          · exact hget c h hmut
          · exact h4 c h hmut

/-- A mutation call found in the trace of a run is the call of one of the blocks, whose
field changed, and what precedes it is the trace of the successful run of the blocks
before that one. -/
theorem runSteps_split (r : Remote) (d : ResourceData) (ks : List StepKind) :
    ∀ (tr pre : List Call) (m : Call) (post : List Call),
      (runSteps r d ks tr).1 = tr ++ (pre ++ m :: post) → m.isMutation = true →
      ∃ before k after, ks = before ++ k :: after ∧ m = callOf d k ∧
        changedOf d k = true ∧ runSteps r d before tr = (tr ++ pre, .ok ()) := by
  induction ks with
  | nil =>
    intro tr pre m post h _
    simp [runSteps] at h
  | cons k ks ih =>
    intro tr pre m post h hm
    have hmg : m ≠ kubeGet d.serviceName d.id := by
      intro hg
      rw [hg, kubeGet_not_isMutation] at hm
      exact Bool.noConfusion hm
    rcases stepOf_cases r d k tr with ⟨_, hs⟩ | ⟨_, _, e, _, hs⟩ | ⟨hc, _, n, hn⟩
    · rw [runSteps_cons_ok r d k ks tr tr hs] at h
      obtain ⟨before, j, after, h1, h2, h3, h4⟩ := ih tr pre m post h hm
      refine ⟨k :: before, j, after, by rw [h1]; rfl, h2, h3, ?_⟩
      rw [runSteps_cons_ok r d k before tr tr hs]
      exact h4
    · rw [runSteps_cons_error r d k ks tr tr e hs] at h
      simp at h
    · rcases hs : stepOf r d k tr with ⟨tr1, res⟩
      rw [hs] at hn
      simp only at hn
      subst hn
      have first : ∀ rest, callOf d k :: List.replicate n (kubeGet d.serviceName d.id)
          = pre ++ m :: rest →
          ∃ before j after, k :: ks = before ++ j :: after ∧ m = callOf d j ∧
            changedOf d j = true ∧ runSteps r d before tr = (tr ++ pre, .ok ()) := by
        intro rest hrest
        obtain ⟨hpre, hmc⟩ := issued_head _ _ _ _ _ _ hrest hmg
        subst hpre
        exact ⟨[], k, ks, rfl, hmc, hc, by simp [runSteps]⟩
      cases res with
      | error e =>
        rw [runSteps_cons_error r d k ks tr _ e hs] at h
        simp only [List.append_cancel_left_eq] at h
        exact first post h
      | ok u =>
        cases u
        rw [runSteps_cons_ok r d k ks tr _ hs] at h
        obtain ⟨ext, h1, _⟩ := runSteps_trace r d ks (tr ++ callOf d k ::
          List.replicate n (kubeGet d.serviceName d.id))
        rw [h1, List.append_assoc, List.append_cancel_left_eq] at h
        rcases append_eq_split _ _ _ _ _ h with ⟨rest, hrest⟩ | ⟨mid, hmid, hext⟩
        · exact first rest hrest
        · rw [hext] at h1
          obtain ⟨before, j, after, e1, e2, e3, e4⟩ := ih _ mid m post h1 hm
          refine ⟨k :: before, j, after, by rw [e1]; rfl, e2, e3, ?_⟩
          rw [runSteps_cons_ok r d k before tr _ hs, e4, hmid]
          simp

/-- A block that fails after its mutation was issued fails with the error of the
call or of the wait. -/
theorem stepOf_error_kind (r : Remote) (d : ResourceData) (k : StepKind) (tr : List Call)
    (e : UpdateError) (h : (stepOf r d k tr).2 = .error e) :
    (k = .version ∧ validateVersionChange d.version.old d.version.new = .error e) ∨
    (∃ ce, e = .client ce) ∨ (∃ we, e = .waitReady d.id we) := by
  cases k with
  | version =>
    simp only [stepOf, versionStep] at h
    split at h
    · split at h
      · rename_i e1 hv
        simp only [Except.error.injEq] at h
        subst h
        exact Or.inl ⟨rfl, hv⟩
      · exact Or.inr (mutateThenWait_error _ _ _ _ _ _ h)
    · simp at h
  | customization =>
    simp only [stepOf, customizationStep] at h
    split at h
    · exact Or.inr (mutateThenWait_error _ _ _ _ _ _ h)
    · simp at h
  | updatePolicy =>
    simp only [stepOf, updatePolicyStep] at h
    split at h
    · exact Or.inr (mutateThenWait_error _ _ _ _ _ _ h)
    · simp at h
  | rename =>
    simp only [stepOf, renameStep] at h
    split at h
    · exact Or.inr (mutateThenWait_error _ _ _ _ _ _ h)
    · simp at h
  | pnc =>
    simp only [stepOf, pncStep] at h
    split at h
    · exact Or.inr (mutateThenWait_error _ _ _ _ _ _ h)
    · simp at h

theorem mutateThenWait_ok_wait (r : Remote) (kubeId : String) (c : Call)
    (w : List Call → List Call × Except WaitError Unit) (tr tr1 : List Call)
    (h : mutateThenWait r kubeId c (some w) tr = (tr1, .ok ())) :
    w (tr ++ [c]) = (tr1, .ok ()) := by
  unfold mutateThenWait Remote.exec at h
  cases hr : r.respond tr c with
  | error ce =>
    rw [hr] at h
    simp at h
  | ok res =>
    rw [hr] at h
    simp only at h
    rcases hw : w (tr ++ [c]) with ⟨tr2, res2⟩
    rw [hw] at h
    cases res2 with
    | error we => simp at h
    | ok u =>
      cases u
      simp only [Prod.mk.injEq, and_true] at h
      rw [h]

/-- A block with a wait that ran and succeeded: its wait, started right after its
mutation, returned success. -/
theorem stepOf_ok_wait (r : Remote) (d : ResourceData) (k : StepKind) (tr tr1 : List Call)
    (hc : changedOf d k = true) (hw : hasWait k = true)
    (h : stepOf r d k tr = (tr1, .ok ())) :
    waitForCloudProjectKubeReady r d.serviceName d.id (pendingOf k) ["READY"]
      (tr ++ [callOf d k]) = (tr1, .ok ()) := by
  cases k with
  | customization =>
    simp only [changedOf] at hc
    simp only [stepOf, customizationStep, hc, if_true] at h
    exact mutateThenWait_ok_wait _ _ _ _ _ _ h
  | version =>
    simp only [changedOf] at hc
    simp only [stepOf, versionStep, hc, if_true] at h
    split at h
    · simp at h
    · exact mutateThenWait_ok_wait _ _ _ _ _ _ h
  | updatePolicy => simp [hasWait] at hw
  | rename => simp [hasWait] at hw
  | pnc =>
    simp only [changedOf] at hc
    simp only [stepOf, pncStep, hc, if_true] at h
    exact mutateThenWait_ok_wait _ _ _ _ _ _ h

theorem runSteps_unchanged (r : Remote) (d : ResourceData) (ks : List StepKind)
    (h : plannedMutations d ks = []) : ∀ tr, runSteps r d ks tr = (tr, .ok ()) := by
  induction ks with
  | nil => intro tr; rfl
  | cons k ks ih =>
    intro tr
    cases hc : changedOf d k with
    | true => simp [plannedMutations, List.filter_cons, hc] at h
    | false =>
      have hp : plannedMutations d ks = [] := by
        simpa [plannedMutations, List.filter_cons, hc] using h
      rcases stepOf_cases r d k tr with ⟨_, hs⟩ | ⟨hc2, _⟩ | ⟨hc2, _⟩
      · rw [runSteps_cons_ok r d k ks tr tr hs]
        exact ih hp tr
      · rw [hc] at hc2; exact Bool.noConfusion hc2
      · rw [hc] at hc2; exact Bool.noConfusion hc2

/-- A successful wait for READY made at least one fetch, and the last one was answered
with the status READY. -/
theorem waitReady_ok_last (r : Remote) (s i : String) (pending : List String)
    (tr tr1 : List Call)
    (h : waitForCloudProjectKubeReady r s i pending ["READY"] tr = (tr1, .ok ())) :
    ∃ n res, tr1 = tr ++ List.replicate (n + 1) (kubeGet s i) ∧
      r.respond (tr ++ List.replicate n (kubeGet s i)) (kubeGet s i) = .ok res ∧
      res.status = "READY" := by
  obtain ⟨n, st, _, h1, h2, h3⟩ := WaitForState_ok pending ["READY"] (refreshReady r s i)
    (kubeGet s i) (refreshReady_trace r s i) _ _ _ h
  simp only [refreshReady, Remote.exec] at h2
  cases hr : r.respond (tr ++ List.replicate n (kubeGet s i)) (kubeGet s i) with
  | error e =>
    rw [hr] at h2
    simp at h2
  | ok res =>
    rw [hr] at h2
    simp only [Except.ok.injEq] at h2
    subst h2
    refine ⟨n, res, h1, hr, ?_⟩
    simpa using h3

/-! ## The update (C6 to C9) -/

/-- Counterexample to C6: the version changed from "1.24" to "1.26", which the checks
refuse with the next-minor-only error, but the update returns the transport error of
the customization PUT, made before the version is looked at. -/
theorem C6_counterexample :
    customizationAndSkipData.version.HasChange = true ∧
    validateVersionChange customizationAndSkipData.version.old
      customizationAndSkipData.version.new = .error (.nextMinorOnly "1.24" "1.26") ∧
    resourceCloudProjectKubeUpdate remoteDown customizationAndSkipData
      = ([customizationCall customizationAndSkipData],
         .error (.client (.other "connection refused"))) ∧
    (resourceCloudProjectKubeUpdate remoteDown customizationAndSkipData).2
      ≠ .error (.nextMinorOnly "1.24" "1.26") := by
  decide

/-- C6 as amended: when the version changed and the checks refuse the change with
error `e`, the update is the customization block followed by the return of `e`
without any call: its trace is that of the customization block, it returns `e`
whenever that block succeeded (or was not needed), and no call of the version block
or of a later block (upgrade POST, update-policy, name or private-network PUT) is in
the trace. -/
theorem C6_policy_error_before_any_call (r : Remote) (d : ResourceData) (e : UpdateError)
    (hchange : d.version.old ≠ d.version.new)
    (hval : validateVersionChange d.version.old d.version.new = .error e) :
    resourceCloudProjectKubeUpdate r d
      = andThen (customizationStep r d []) (fun tr => (tr, .error e)) ∧
    (resourceCloudProjectKubeUpdate r d).1 = (customizationStep r d []).1 ∧
    ((customizationStep r d []).2 = .ok () →
      (resourceCloudProjectKubeUpdate r d).2 = .error e) ∧
    (changedOf d .customization = false →
      resourceCloudProjectKubeUpdate r d = ([], .error e)) ∧
    (∀ k, k ≠ .customization → callOf d k ∉ (resourceCloudProjectKubeUpdate r d).1) := by
  have hv : ∀ tr, versionStep r d tr = (tr, .error e) :=
    fun tr => versionStep_of_check_error r d tr e hchange hval
  have hup : resourceCloudProjectKubeUpdate r d
      = andThen (customizationStep r d []) (fun tr => (tr, .error e)) := by
    unfold resourceCloudProjectKubeUpdate
    rcases customizationStep r d [] with ⟨t1, _ | ⟨⟨⟩⟩⟩
    · rfl
    · simp [andThen, hv]
  have htr : (resourceCloudProjectKubeUpdate r d).1 = (customizationStep r d []).1 := by
    rw [hup]
    rcases customizationStep r d [] with ⟨t1, _ | ⟨⟨⟩⟩⟩ <;> rfl
  refine ⟨hup, htr, ?_, ?_, ?_⟩
  · intro hok
    rw [hup]
    rcases hcs : customizationStep r d [] with ⟨t1, res⟩
    rw [hcs] at hok
    simp only at hok
    subst hok
    rfl
  · intro hc
    rcases stepOf_cases r d .customization [] with ⟨_, hs⟩ | ⟨hc2, _⟩ | ⟨hc2, _⟩
    · simp only [stepOf] at hs
      rw [hup, hs]
      rfl
    · rw [hc] at hc2; exact Bool.noConfusion hc2
    · rw [hc] at hc2; exact Bool.noConfusion hc2
  · intro k hk hmem
    rw [htr] at hmem
    rcases stepOf_cases r d .customization [] with ⟨_, hs⟩ | ⟨_, hk2, _⟩ | ⟨_, _, n, hn⟩
    · simp only [stepOf] at hs
      rw [hs] at hmem
      simp at hmem
    · exact StepKind.noConfusion hk2
    · simp only [stepOf] at hn
      rw [hn] at hmem
      simp only [List.nil_append, List.mem_cons] at hmem
      rcases hmem with h | h
      · exact hk (callOf_injective d _ _ h)
      · exact callOf_ne_kubeGet d k _ _ (List.eq_of_mem_replicate h)

/-- Witness of C6 as amended: the customization succeeds and the version goes from
"1.24" to "1.26". -/
theorem C6_policy_error_before_any_call_witness :
    (resourceCloudProjectKubeUpdate remoteReady customizationAndSkipData).2
      = .error (.nextMinorOnly "1.24" "1.26") :=
  (C6_policy_error_before_any_call remoteReady customizationAndSkipData
    (.nextMinorOnly "1.24" "1.26") (by decide) (by decide)).2.2.1 (by decide)

theorem updateOrder_before_version (before after : List StepKind)
    (h : updateOrder = before ++ StepKind.version :: after) :
    before = [StepKind.customization] := by
  simp only [updateOrder] at h
  match before with
  | [] => simp at h
  | [x] =>
    simp only [List.cons_append, List.nil_append, List.cons.injEq] at h
    rw [← h.1]
  | [x, y] => simp at h
  | [x, y, z] => simp at h
  | [x, y, z, u] => simp at h
  | x :: y :: z :: u :: v :: rest => simp at h

/-- C7: in every run of the update, (1) the mutation calls of the trace are a prefix
of the mutations of the changed fields in the order customization, version, update
policy, name, private network, and all of them when the update succeeds; (2) what
precedes a mutation call in the trace is the trace of the successful run of the blocks
before its own; (3) between the mutation of a block with a wait and the next mutation
lies exactly the wait of that block, which returned success after a last fetch answered
READY; (4) when a customization block changed, what precedes the upgrade POST is the
customization PUT followed by its successful wait. -/
theorem C7_mutations_in_order (r : Remote) (d : ResourceData) :
    ((resourceCloudProjectKubeUpdate r d).1.filter Call.isMutation
        <+: plannedMutations d updateOrder ∧
      ((resourceCloudProjectKubeUpdate r d).2 = .ok () →
        (resourceCloudProjectKubeUpdate r d).1.filter Call.isMutation
          = plannedMutations d updateOrder)) ∧
    (∀ pre m post, (resourceCloudProjectKubeUpdate r d).1 = pre ++ m :: post →
      m.isMutation = true →
      ∃ before k after, updateOrder = before ++ k :: after ∧ m = callOf d k ∧
        changedOf d k = true ∧ runSteps r d before [] = (pre, .ok ())) ∧
    (∀ pre j mid m post,
      (resourceCloudProjectKubeUpdate r d).1 = pre ++ callOf d j :: (mid ++ m :: post) →
      m.isMutation = true → (∀ c ∈ mid, c.isMutation = false) → hasWait j = true →
      waitForCloudProjectKubeReady r d.serviceName d.id (pendingOf j) ["READY"]
          (pre ++ [callOf d j]) = (pre ++ callOf d j :: mid, .ok ()) ∧
        ∃ n res, mid = List.replicate (n + 1) (kubeGet d.serviceName d.id) ∧
          r.respond (pre ++ callOf d j :: List.replicate n (kubeGet d.serviceName d.id))
            (kubeGet d.serviceName d.id) = .ok res ∧ res.status = "READY") ∧
    (changedOf d .customization = true → ∀ pre post,
      (resourceCloudProjectKubeUpdate r d).1 = pre ++ upgradeCall d :: post →
      customizationStep r d [] = (pre, .ok ()) ∧
        waitForCloudProjectKubeReady r d.serviceName d.id ["REDEPLOYING", "RESETTING"]
          ["READY"] [customizationCall d] = (pre, .ok ()) ∧
        ∃ n, pre = customizationCall d
          :: List.replicate (n + 1) (kubeGet d.serviceName d.id)) := by
  have hsplit : ∀ pre m post, (resourceCloudProjectKubeUpdate r d).1 = pre ++ m :: post →
      m.isMutation = true →
      ∃ before k after, updateOrder = before ++ k :: after ∧ m = callOf d k ∧
        changedOf d k = true ∧ runSteps r d before [] = (pre, .ok ()) := by
    intro pre m post hT hm
    rw [update_eq_runSteps] at hT
    have hT2 : (runSteps r d updateOrder []).1 = [] ++ (pre ++ m :: post) := by
      rw [hT]; rfl
    obtain ⟨before, k, after, h1, h2, h3, h4⟩ := runSteps_split r d updateOrder [] pre m post hT2 hm
    exact ⟨before, k, after, h1, h2, h3, by simpa using h4⟩
  refine ⟨?_, hsplit, ?_, ?_⟩
  · rw [update_eq_runSteps]
    obtain ⟨ext, h1, h2, h3, _⟩ := runSteps_trace r d updateOrder []
    simp only [List.nil_append] at h1
    rw [h1]
    exact ⟨h2, h3⟩
  · intro pre j mid m post hT hm hmid hw
    have hT2 : (resourceCloudProjectKubeUpdate r d).1
        = (pre ++ callOf d j :: mid) ++ m :: post := by
      rw [hT]; simp
    obtain ⟨before, k, after, _, _, _, hrun⟩ := hsplit _ m post hT2 hm
    have h2 : (runSteps r d before []).1 = [] ++ (pre ++ callOf d j :: mid) := by
      rw [hrun]; rfl
    obtain ⟨b1, j2, a1, hb, hj, hcj, hrun1⟩ :=
      runSteps_split r d before [] pre (callOf d j) mid h2 (callOf_isMutation d j)
    have hjj := callOf_injective d j j2 hj
    subst hjj
    rw [hb, runSteps_append_ok r d b1 (j :: a1) [] _ hrun1] at hrun
    simp only [List.nil_append] at hrun
    rcases hs : stepOf r d j pre with ⟨tj, res⟩
    cases res with
    | error e =>
      rw [runSteps_cons_error r d j a1 pre tj e hs] at hrun
      simp at hrun
    | ok u =>
      cases u
      rw [runSteps_cons_ok r d j a1 pre tj hs] at hrun
      rcases stepOf_cases r d j pre with ⟨hc2, _⟩ | ⟨_, _, e, _, hs2⟩ | ⟨_, _, n, hn⟩
      · rw [hcj] at hc2; exact Bool.noConfusion hc2
      · rw [hs] at hs2; simp at hs2
      · rw [hs] at hn
        simp only at hn
        subst hn
        obtain ⟨ext, e1, _, e3, _⟩ := runSteps_trace r d a1
          (pre ++ callOf d j :: List.replicate n (kubeGet d.serviceName d.id))
        rw [hrun] at e1 e3
        simp only [List.append_assoc, List.cons_append, List.append_cancel_left_eq,
          List.cons.injEq, true_and] at e1
        have hext : ext.filter Call.isMutation = [] := by
          apply List.filter_eq_nil_iff.2
          intro c hc
          have := hmid c (by rw [e1]; exact List.mem_append_right _ hc)
          simp [this]
        have hp : plannedMutations d a1 = [] := by
          rw [← e3 rfl, hext]
        rw [runSteps_unchanged r d a1 hp] at hrun
        simp only [Prod.mk.injEq, and_true] at hrun
        have hwait := stepOf_ok_wait r d j pre _ hcj hw hs
        rw [hrun] at hwait
        refine ⟨hwait, ?_⟩
        obtain ⟨n2, res, q1, q2, q3⟩ := waitReady_ok_last r _ _ _ _ _ hwait
        refine ⟨n2, res, ?_, by simpa using q2, q3⟩
        simpa using q1
  · intro hc pre post hT
    obtain ⟨before, k, after, hord, hk, _, hrun⟩ :=
      hsplit pre (upgradeCall d) post hT rfl
    have hkv : StepKind.version = k := callOf_injective d .version k hk
    subst hkv
    rw [updateOrder_before_version before after hord] at hrun
    have hstep : stepOf r d .customization [] = (pre, .ok ()) := by
      rcases hs : stepOf r d .customization [] with ⟨t1, res⟩
      cases res with
      | error e =>
        rw [runSteps_cons_error r d _ [] [] t1 e hs] at hrun
        simp at hrun
      | ok u =>
        cases u
        rw [runSteps_cons_ok r d _ [] [] t1 hs] at hrun
        simp only [runSteps, Prod.mk.injEq, and_true] at hrun
        rw [hrun]
    have hwait := stepOf_ok_wait r d .customization [] pre hc rfl hstep
    refine ⟨hstep, hwait, ?_⟩
    obtain ⟨n, _, q1, _, _⟩ := waitReady_ok_last r _ _ _ _ _ hwait
    exact ⟨n, by simpa [callOf] using q1⟩

/-- Witness of C7: the customization and the version ("1.24" to "1.25") both changed
and the remote side reports READY; the upgrade POST is the third call, after the
customization PUT and one status fetch. -/
theorem C7_mutations_in_order_witness :
    customizationStep remoteReady customizationAndUpgradeData []
      = ([customizationCall customizationAndUpgradeData, kubeGet "svc" "kube1"], .ok ()) :=
  ((C7_mutations_in_order remoteReady customizationAndUpgradeData).2.2.2 (by decide)
    [customizationCall customizationAndUpgradeData, kubeGet "svc" "kube1"]
    [kubeGet "svc" "kube1"] (by decide)).1

/-- C8: when no customization block, version, update policy, name or private-network
configuration changed, the update makes no call at all (no mutation, no status fetch)
and succeeds. -/
theorem C8_no_change_no_call (r : Remote) (d : ResourceData)
    (h1 : d.customizationApiserver.hasChange = false)
    (h2 : d.customizationKubeProxy.hasChange = false)
    (h3 : d.version.HasChange = false)
    (h4 : d.updatePolicy.HasChange = false)
    (h5 : d.name.HasChange = false)
    (h6 : d.privateNetworkConfiguration.hasChange = false) :
    resourceCloudProjectKubeUpdate r d = ([], .ok ()) := by
  simp [resourceCloudProjectKubeUpdate, customizationStep, versionStep, updatePolicyStep,
    renameStep, pncStep, andThen, h1, h2, h3, h4, h5, h6]

/-- Witness of C8 on data in which old and new values agree. -/
theorem C8_no_change_no_call_witness :
    resourceCloudProjectKubeUpdate remoteDown unchangedData = ([], .ok ()) :=
  C8_no_change_no_call remoteDown unchangedData (by decide) (by decide) (by decide)
    (by decide) (by decide) (by decide)

theorem updateOrder_nodup : updateOrder.Nodup := by decide

theorem mem_plannedMutations (d : ResourceData) (ks : List StepKind) (c : Call)
    (h : c ∈ plannedMutations d ks) : ∃ k ∈ ks, changedOf d k = true ∧ c = callOf d k := by
  simp only [plannedMutations, List.mem_map, List.mem_filter] at h
  obtain ⟨k, ⟨hk, hc⟩, he⟩ := h
  exact ⟨k, hk, hc, he.symm⟩

/-- Counterexample to C9: the customization block is the first to fail, by its wait
(the status ERROR is neither pending nor target), and its PUT is in the trace: the
mutation of the failing step was submitted. -/
theorem C9_counterexample :
    runSteps remoteError customizationAndSkipData [] [] = ([], .ok ()) ∧
    stepOf remoteError customizationAndSkipData .customization []
      = ([customizationCall customizationAndSkipData, kubeGet "svc" "kube1"],
         .error (.waitReady "kube1" (.unexpectedState "ERROR"))) ∧
    resourceCloudProjectKubeUpdate remoteError customizationAndSkipData
      = ([customizationCall customizationAndSkipData, kubeGet "svc" "kube1"],
         .error (.waitReady "kube1" (.unexpectedState "ERROR"))) ∧
    callOf customizationAndSkipData .customization
      ∈ (resourceCloudProjectKubeUpdate remoteError customizationAndSkipData).1 := by
  decide

theorem mutateThenWait_of_error (r : Remote) (kubeId : String) (c : Call)
    (wait : Option (List Call → List Call × Except WaitError Unit)) (tr : List Call)
    (ce : ClientError) (h : r.respond tr c = .error ce) :
    mutateThenWait r kubeId c wait tr = (tr ++ [c], .error (.client ce)) := by
  simp [mutateThenWait, Remote.exec, h]

theorem mutateThenWait_of_ok (r : Remote) (kubeId : String) (c : Call) (tr : List Call)
    (res : KubeResponse) (h : r.respond tr c = .ok res) :
    mutateThenWait r kubeId c none tr = (tr ++ [c], .ok ()) ∧
    ∀ w, (∀ t2 we, w (tr ++ [c]) = (t2, .error we) →
        mutateThenWait r kubeId c (some w) tr = (t2, .error (.waitReady kubeId we))) ∧
      (∀ t2, w (tr ++ [c]) = (t2, .ok ()) →
        mutateThenWait r kubeId c (some w) tr = (t2, .ok ())) := by
  refine ⟨by simp [mutateThenWait, Remote.exec, h], ?_⟩
  intro w
  constructor
  · intro t2 we hw
    simp [mutateThenWait, Remote.exec, h, hw]
  · intro t2 hw
    simp [mutateThenWait, Remote.exec, h, hw]

/-- A block whose field changed and, for the version block, whose checks passed, is
its mutation followed by its wait. -/
theorem stepOf_issued (r : Remote) (d : ResourceData) (k : StepKind) (tr : List Call)
    (hc : changedOf d k = true)
    (hv : k = .version → validateVersionChange d.version.old d.version.new = .ok ()) :
    stepOf r d k tr = mutateThenWait r d.id (callOf d k) (waitOf r d k) tr := by
  cases k with
  | customization =>
    simp only [changedOf] at hc
    simp [stepOf, customizationStep, hc, waitOf, hasWait, pendingOf, callOf]
  | version =>
    simp only [changedOf] at hc
    simp [stepOf, versionStep, hc, hv rfl, waitOf, hasWait, pendingOf, callOf]
  | updatePolicy =>
    simp only [changedOf] at hc
    simp [stepOf, updatePolicyStep, hc, waitOf, hasWait, callOf]
  | rename =>
    simp only [changedOf] at hc
    simp [stepOf, renameStep, hc, waitOf, hasWait, callOf]
  | pnc =>
    simp only [changedOf] at hc
    simp [stepOf, pncStep, hc, waitOf, hasWait, pendingOf, callOf]

/-- C9 as amended: let block `k` be reached with success (the blocks before it ran
with success, giving the trace `pre`) and let its field have changed. (1) When `k` is
the version block and its checks refuse the change, the update returns their error
with the trace `pre`: the mutation of `k` is not submitted. (2) When the mutation call
of `k` is answered with an error, the update returns that error right after the call,
without any fetch. (3) When the mutation call of `k` is accepted and the wait of `k`
fails, the update returns the error of the wait with the trace at the end of the wait,
which holds the mutation of `k`. (4) Whenever `k` fails, it fails in one of these
three ways, the update returns its error and makes no further call, the mutation of
every changed block before `k` is in the trace and no mutation of a block after `k`
is. -/
theorem C9_first_failure (r : Remote) (d : ResourceData)
    (before : List StepKind) (k : StepKind) (after : List StepKind) (pre : List Call)
    (hord : updateOrder = before ++ k :: after)
    (hpre : runSteps r d before [] = (pre, .ok ())) :
    (∀ e, k = .version → changedOf d k = true →
      validateVersionChange d.version.old d.version.new = .error e →
      resourceCloudProjectKubeUpdate r d = (pre, .error e) ∧ callOf d k ∉ pre) ∧
    (∀ ce, changedOf d k = true →
      (k = .version → validateVersionChange d.version.old d.version.new = .ok ()) →
      r.respond pre (callOf d k) = .error ce →
      resourceCloudProjectKubeUpdate r d = (pre ++ [callOf d k], .error (.client ce))) ∧
    (∀ res tr we, changedOf d k = true →
      (k = .version → validateVersionChange d.version.old d.version.new = .ok ()) →
      r.respond pre (callOf d k) = .ok res → hasWait k = true →
      waitForCloudProjectKubeReady r d.serviceName d.id (pendingOf k) ["READY"]
        (pre ++ [callOf d k]) = (tr, .error we) →
      resourceCloudProjectKubeUpdate r d = (tr, .error (.waitReady d.id we)) ∧
        callOf d k ∈ tr) ∧
    (∀ tr e, stepOf r d k pre = (tr, .error e) →
      resourceCloudProjectKubeUpdate r d = (tr, .error e) ∧
      (∀ j ∈ before, changedOf d j = true → callOf d j ∈ tr) ∧
      (∀ j ∈ after, callOf d j ∉ tr) ∧
      ((k = .version ∧ validateVersionChange d.version.old d.version.new = .error e ∧
          tr = pre ∧ callOf d k ∉ tr) ∨
        (∃ ce, e = .client ce ∧ r.respond pre (callOf d k) = .error ce ∧
          tr = pre ++ [callOf d k]) ∨
        (∃ we res n, e = .waitReady d.id we ∧ hasWait k = true ∧
          r.respond pre (callOf d k) = .ok res ∧
          waitForCloudProjectKubeReady r d.serviceName d.id (pendingOf k) ["READY"]
            (pre ++ [callOf d k]) = (tr, .error we) ∧
          tr = pre ++ callOf d k
            :: List.replicate n (kubeGet d.serviceName d.id)))) := by
  have hnd : (before ++ k :: after).Nodup := by
    rw [← hord]; exact updateOrder_nodup
  have hkb : k ∉ before := by
    intro hk
    exact (List.nodup_append.1 hnd).2.2 hk (by simp)
  have hka : k ∉ after := (List.nodup_cons.1 (List.nodup_append.1 hnd).2.1).1
  -- the trace of the blocks before `k`
  obtain ⟨ext, p1, _, p3, _⟩ := runSteps_trace r d before []
  rw [hpre] at p1 p3
  simp only [List.nil_append] at p1
  subst p1
  have hpremut : ∀ c ∈ pre, c.isMutation = true →
      ∃ j ∈ before, changedOf d j = true ∧ c = callOf d j := by
    intro c hc hm
    apply mem_plannedMutations
    rw [← p3 rfl]
    exact List.mem_filter.2 ⟨hc, hm⟩
  have hkpre : callOf d k ∉ pre := by
    intro hmem
    obtain ⟨j, hj, _, he⟩ := hpremut _ hmem (callOf_isMutation d k)
    rw [← callOf_injective d k j he] at hj
    exact hkb hj
  have hupd : ∀ tr e, stepOf r d k pre = (tr, .error e) →
      resourceCloudProjectKubeUpdate r d = (tr, .error e) := by
    intro tr e hfail
    rw [update_eq_runSteps, hord, runSteps_append_ok r d before _ [] pre hpre,
      runSteps_cons_error r d k after pre tr e hfail]
  -- the three ways in which an issued block ends
  have hissued : ∀ tr e, changedOf d k = true →
      (k = .version → validateVersionChange d.version.old d.version.new = .ok ()) →
      stepOf r d k pre = (tr, .error e) →
      (∃ ce, e = .client ce ∧ r.respond pre (callOf d k) = .error ce ∧
          tr = pre ++ [callOf d k]) ∨
        (∃ we res n, e = .waitReady d.id we ∧ hasWait k = true ∧
          r.respond pre (callOf d k) = .ok res ∧
          waitForCloudProjectKubeReady r d.serviceName d.id (pendingOf k) ["READY"]
            (pre ++ [callOf d k]) = (tr, .error we) ∧
          tr = pre ++ callOf d k :: List.replicate n (kubeGet d.serviceName d.id)) := by
    intro tr e hc hv hfail
    rw [stepOf_issued r d k pre hc hv] at hfail
    cases hr : r.respond pre (callOf d k) with
    | error ce =>
      rw [mutateThenWait_of_error r d.id _ _ pre ce hr] at hfail
      simp only [Prod.mk.injEq, Except.error.injEq] at hfail
      exact Or.inl ⟨ce, hfail.2.symm, rfl, hfail.1.symm⟩
    | ok res =>
      obtain ⟨hnone, hsome⟩ := mutateThenWait_of_ok r d.id (callOf d k) pre res hr
      cases hw : hasWait k with
      | false =>
        simp only [waitOf, hw, Bool.false_eq_true, if_false] at hfail
        rw [hnone] at hfail
        simp at hfail
      | true =>
        simp only [waitOf, hw, if_true] at hfail
        rcases hwr : waitForCloudProjectKubeReady r d.serviceName d.id (pendingOf k)
          ["READY"] (pre ++ [callOf d k]) with ⟨t2, wres⟩
        cases wres with
        | error we =>
          rw [(hsome _).1 t2 we hwr] at hfail
          simp only [Prod.mk.injEq, Except.error.injEq] at hfail
          obtain ⟨h1, h2⟩ := hfail
          subst h1
          obtain ⟨n, hn⟩ := waitForCloudProjectKubeReady_trace r d.serviceName d.id
            (pendingOf k) ["READY"] (pre ++ [callOf d k])
          rw [hwr] at hn
          exact Or.inr ⟨we, res, n, h2.symm, rfl, rfl, rfl, by simpa using hn⟩
        | ok u =>
          cases u
          rw [(hsome _).2 t2 hwr] at hfail
          simp at hfail
  refine ⟨?_, ?_, ?_, ?_⟩
  · intro e hk hc hval
    subst hk
    have hne : d.version.old ≠ d.version.new := by
      simpa [changedOf, StringChange.HasChange] using hc
    exact ⟨hupd pre e (versionStep_of_check_error r d pre e hne hval), hkpre⟩
  · intro ce hc hv hr
    apply hupd
    rw [stepOf_issued r d k pre hc hv]
    exact mutateThenWait_of_error r d.id _ _ pre ce hr
  · intro res tr we hc hv hr hw hwait
    constructor
    · apply hupd
      rw [stepOf_issued r d k pre hc hv]
      simp only [waitOf, hw, if_true]
      exact ((mutateThenWait_of_ok r d.id (callOf d k) pre res hr).2 _).1 tr we hwait
    · obtain ⟨n, hn⟩ := waitForCloudProjectKubeReady_trace r d.serviceName d.id
        (pendingOf k) ["READY"] (pre ++ [callOf d k])
      rw [hwait] at hn
      simp only at hn
      rw [hn]
      simp
  · intro tr e hfail
    have hcase : (k = .version ∧
          validateVersionChange d.version.old d.version.new = .error e ∧
          tr = pre ∧ callOf d k ∉ tr) ∨
        (∃ ce, e = .client ce ∧ r.respond pre (callOf d k) = .error ce ∧
          tr = pre ++ [callOf d k]) ∨
        (∃ we res n, e = .waitReady d.id we ∧ hasWait k = true ∧
          r.respond pre (callOf d k) = .ok res ∧
          waitForCloudProjectKubeReady r d.serviceName d.id (pendingOf k) ["READY"]
            (pre ++ [callOf d k]) = (tr, .error we) ∧
          tr = pre ++ callOf d k :: List.replicate n (kubeGet d.serviceName d.id)) := by
      rcases stepOf_cases r d k pre with ⟨_, hs⟩ | ⟨_, hkv, e2, hv, hs⟩ | ⟨hc, hvok, _⟩
      · rw [hfail] at hs; simp at hs
      · left
        rw [hfail] at hs
        simp only [Prod.mk.injEq, Except.error.injEq] at hs
        obtain ⟨h1, h2⟩ := hs
        subst h1 h2
        exact ⟨hkv, hv, rfl, hkpre⟩
      · exact Or.inr (hissued tr e hc hvok hfail)
    have htr : tr = pre ∨
        ∃ n, tr = pre ++ callOf d k :: List.replicate n (kubeGet d.serviceName d.id) := by
      rcases hcase with ⟨_, _, h, _⟩ | ⟨_, _, _, h⟩ | ⟨_, _, n, _, _, _, _, h⟩
      · exact Or.inl h
      · exact Or.inr ⟨0, by simpa using h⟩
      · exact Or.inr ⟨n, h⟩
    refine ⟨hupd tr e hfail, ?_, ?_, hcase⟩
    · intro j hj hc
      have hmem : callOf d j ∈ pre := by
        have : callOf d j ∈ plannedMutations d before := by
          simp only [plannedMutations, List.mem_map, List.mem_filter]
          exact ⟨j, ⟨hj, hc⟩, rfl⟩
        rw [← p3 rfl] at this
        exact (List.mem_filter.1 this).1
      rcases htr with h | ⟨n, h⟩
      · rw [h]; exact hmem
      · rw [h]; exact List.mem_append_left _ hmem
    · intro j hj hmem
      have hjk : j ≠ k := fun h => hka (h ▸ hj)
      have hjb : j ∉ before := by
        intro hb
        exact (List.nodup_append.1 hnd).2.2 hb (List.mem_cons_of_mem _ hj)
      have hjpre : callOf d j ∉ pre := by
        intro hm
        obtain ⟨j2, hj2, _, he⟩ := hpremut _ hm (callOf_isMutation d j)
        rw [← callOf_injective d j j2 he] at hj2
        exact hjb hj2
      rcases htr with h | ⟨n, h⟩
      · rw [h] at hmem; exact hjpre hmem
      · rw [h] at hmem
        rcases List.mem_append.1 hmem with h1 | h1
        · exact hjpre h1
        · rcases List.mem_cons.1 h1 with h2 | h2
          · exact hjk (callOf_injective d j k h2)
          · exact callOf_ne_kubeGet d j _ _ (List.eq_of_mem_replicate h2)

/-- Witness of C9 as amended: the customization PUT is refused with an API error, and
the update returns that error right after the call. -/
theorem C9_first_failure_witness :
    resourceCloudProjectKubeUpdate remoteRefusing customizationAndSkipData
      = ([customizationCall customizationAndSkipData],
         .error (.client (.api 403 "This call has not been granted"))) :=
  (C9_first_failure remoteRefusing customizationAndSkipData
    [] .customization [.version, .updatePolicy, .rename, .pnc] []
    (by decide) (by decide)).2.1
    (.api 403 "This call has not been granted") (by decide) (by decide) (by decide)

/-! ## The delete wait (C10) -/

/-- C10: the status fetch of the delete wait turns an API error with code 404 into
the status DELETED without error, returns any other error as it is, and returns the
remote status as it is; a wait whose first fetch fails with another error ends with
that error; and a wait that sees DELETING and then a 404 error ends with success after
these two fetches, provided the timeout leaves room for two fetches. -/
theorem C10_delete_wait_not_found (r : Remote) (s i : String) (tr : List Call) :
    (∀ msg, r.respond tr (kubeGet s i) = .error (.api 404 msg) →
      refreshDeleted r s i tr = (tr ++ [kubeGet s i], .ok "DELETED")) ∧
    (∀ e, r.respond tr (kubeGet s i) = .error e → (∀ msg, e ≠ .api 404 msg) →
      refreshDeleted r s i tr = (tr ++ [kubeGet s i], .error e) ∧
      (1 ≤ r.budget tr →
        waitForCloudProjectKubeDeleted r s i tr
          = (tr ++ [kubeGet s i], .error (.refresh e)))) ∧
    (∀ res, r.respond tr (kubeGet s i) = .ok res →
      refreshDeleted r s i tr = (tr ++ [kubeGet s i], .ok res.status)) ∧
    (∀ res msg, r.respond tr (kubeGet s i) = .ok res → res.status = "DELETING" →
      r.respond (tr ++ [kubeGet s i]) (kubeGet s i) = .error (.api 404 msg) →
      2 ≤ r.budget tr →
      waitForCloudProjectKubeDeleted r s i tr
        = (tr ++ [kubeGet s i, kubeGet s i], .ok ())) := by
  have hother : ∀ e, r.respond tr (kubeGet s i) = .error e → (∀ msg, e ≠ .api 404 msg) →
      refreshDeleted r s i tr = (tr ++ [kubeGet s i], .error e) := by
    intro e he hne
    cases e with
    | api code msg =>
      have hc : code ≠ 404 := by
        intro h
        subst h
        exact hne msg rfl
      simp [refreshDeleted, Remote.exec, he, hc]
    | other msg => simp [refreshDeleted, Remote.exec, he]
  refine ⟨?_, ?_, ?_, ?_⟩
  · intro msg h
    simp [refreshDeleted, Remote.exec, h]
  · intro e he hne
    refine ⟨hother e he hne, ?_⟩
    intro hb
    obtain ⟨n, hn⟩ : ∃ n, r.budget tr = n + 1 := ⟨r.budget tr - 1, by omega⟩
    simp only [waitForCloudProjectKubeDeleted, hn, WaitForState, hother e he hne]
  · intro res h
    simp [refreshDeleted, Remote.exec, h]
  · intro res msg h1 hst h2 hb
    obtain ⟨n, hn⟩ : ∃ n, r.budget tr = n + 2 := ⟨r.budget tr - 2, by omega⟩
    have r1 : refreshDeleted r s i tr = (tr ++ [kubeGet s i], .ok "DELETING") := by
      simp [refreshDeleted, Remote.exec, h1, hst]
    have r2 : refreshDeleted r s i (tr ++ [kubeGet s i])
        = (tr ++ [kubeGet s i, kubeGet s i], .ok "DELETED") := by
      simp [refreshDeleted, Remote.exec, h2]
    have c1 : (["DELETED"] : List String).contains "DELETING" = false := by decide
    have c2 : (["DELETING"] : List String).contains "DELETING" = true := by decide
    have c3 : (["DELETED"] : List String).contains "DELETED" = true := by decide
    simp only [waitForCloudProjectKubeDeleted, hn, WaitForState, r1, r2, c1, c2, c3, if_true,
      Bool.false_eq_true, if_false]

/-- Witness of C10: the remote side reports DELETING and then answers 404. -/
theorem C10_delete_wait_not_found_witness :
    waitForCloudProjectKubeDeleted remoteDeleting "svc" "kube1" []
      = ([kubeGet "svc" "kube1", kubeGet "svc" "kube1"], .ok ()) :=
  (C10_delete_wait_not_found remoteDeleting "svc" "kube1" []).2.2.2
    ⟨"kube1", "DELETING"⟩ "This service does not exist" (by decide) (by decide) (by decide)
    (by decide)

/-! ## Delete (C11) -/

/-- C11: when the DELETE request is answered with not-found (API error 404), the
delete returns success after that single call, without any fetch of the delete wait;
when it is answered with any other error, the delete returns a failure carrying that
error, again after that single call. -/
theorem C11_delete_already_absent (r : Remote) (d : KubeData) :
    (∀ msg, r.respond [] (deleteCall d) = .error (.api 404 msg) →
      resourceCloudProjectKubeDelete r d = ([deleteCall d], { d with id := "" }, .ok ())) ∧
    (∀ e, r.respond [] (deleteCall d) = .error e → (∀ msg, e ≠ .api 404 msg) →
      resourceCloudProjectKubeDelete r d
        = ([deleteCall d], d, .error (.calling (kubeEndpoint d.serviceName d.id) e))) := by
  constructor
  · intro msg h
    simp [resourceCloudProjectKubeDelete, Remote.exec, h, CheckDeleted]
  · intro e h hne
    cases e with
    | api code msg =>
      have hc : code ≠ 404 := by
        intro hcode
        subst hcode
        exact hne msg rfl
      simp [resourceCloudProjectKubeDelete, Remote.exec, h, CheckDeleted, hc]
    | other msg =>
      simp [resourceCloudProjectKubeDelete, Remote.exec, h, CheckDeleted]

/-- Witness of C11: the cluster is already absent. -/
theorem C11_delete_already_absent_witness :
    resourceCloudProjectKubeDelete remoteAbsent existingKubeData
      = ([deleteCall existingKubeData], { existingKubeData with id := "" }, .ok ()) :=
  (C11_delete_already_absent remoteAbsent existingKubeData).1
    "This service does not exist" (by decide)

/-! ## Waits on a sequence of statuses (C12) -/

theorem refreshReady_eq_statusAt (r : Remote) (s i : String) (tr : List Call) (k : Nat) :
    refreshReady r s i (tr ++ List.replicate k (kubeGet s i))
      = (tr ++ List.replicate (k + 1) (kubeGet s i), statusAt r s i tr k) := by
  simp only [refreshReady, Remote.exec, statusAt]
  cases r.respond (tr ++ List.replicate k (kubeGet s i)) (kubeGet s i) <;>
    simp [List.replicate_succ']

/-- While the fetched statuses are polled again (not in target, and in pending or
pending empty), the wait goes on with the fuel left. -/
theorem WaitForState_polled (r : Remote) (s i : String) (pending target : List String)
    (tr : List Call) :
    ∀ (n fuel : Nat),
      (∀ k, k < n → ∃ sk, statusAt r s i tr k = .ok sk ∧ target.contains sk = false ∧
        (pending.contains sk = true ∨ pending.length = 0)) →
      WaitForState pending target (refreshReady r s i) (n + fuel) tr
        = WaitForState pending target (refreshReady r s i) fuel
            (tr ++ List.replicate n (kubeGet s i)) := by
  intro n
  induction n with
  | zero => intro fuel _; simp
  | succ n ih =>
    intro fuel hpre
    have h1 := ih (fuel + 1) (fun k hk => hpre k (by omega))
    have e : n + 1 + fuel = n + (fuel + 1) := by omega
    rw [e, h1]
    obtain ⟨sk, hs, ht, hp⟩ := hpre n (by omega)
    simp only [WaitForState, refreshReady_eq_statusAt, hs, ht, Bool.false_eq_true, if_false]
    rcases hp with hp | hp
    · simp only [hp, if_true]
    · by_cases hc : pending.contains sk = true
      · simp only [hc, if_true]
      · have hl : ¬ (pending.length > 0) := by omega
        simp only [hc, hl, if_false, Bool.false_eq_true]

/-- A fetch answered with a target status ends the wait with success. -/
theorem WaitForState_reached (r : Remote) (s i : String) (pending target : List String)
    (tr : List Call) (n fuel : Nat) (st : String)
    (hpre : ∀ k, k < n → ∃ sk, statusAt r s i tr k = .ok sk ∧ target.contains sk = false ∧
      (pending.contains sk = true ∨ pending.length = 0))
    (hs : statusAt r s i tr n = .ok st) (ht : target.contains st = true) :
    WaitForState pending target (refreshReady r s i) (n + (fuel + 1)) tr
      = (tr ++ List.replicate (n + 1) (kubeGet s i), .ok ()) := by
  rw [WaitForState_polled r s i pending target tr n (fuel + 1) hpre]
  simp only [WaitForState, refreshReady_eq_statusAt, hs, ht, if_true]

/-- Counterexample to C12: with an empty pending set and target READY, the first
fetched status ERROR is in neither set, yet the wait does not fail with the
unexpected-state error: it polls again and succeeds on READY. -/
theorem C12_counterexample :
    statusAt remoteErrorThenReady "svc" "kube1" [] 0 = .ok "ERROR" ∧
    waitForCloudProjectKubeReady remoteErrorThenReady "svc" "kube1" [] ["READY"] []
      = ([kubeGet "svc" "kube1", kubeGet "svc" "kube1"], .ok ()) ∧
    waitForCloudProjectKubeReady remoteErrorThenReady "svc" "kube1" [] ["READY"] []
      ≠ ([kubeGet "svc" "kube1"], .error (.unexpectedState "ERROR")) := by
  decide

/-- C12 as amended: for a wait started after `tr`, with the statuses answered to its
fetches, and calling polled again a status that is not in target and is pending (or
any status not in target when the pending set is empty): (1) when fetch `n`, made
before the timeout and after statuses polled again, gives a target status, the wait
succeeds after that fetch; (2) when the pending set is not empty and fetch `n`, made
before the timeout and after statuses polled again, gives a status neither pending nor
target, the wait fails with the unexpected-state error on that status after that
fetch, without a further fetch; (3) when every fetch made before the timeout gives a
status polled again, the wait fails with the timeout error. -/
theorem C12_wait_outcomes (r : Remote) (s i : String) (pending target : List String)
    (tr : List Call) :
    (∀ n st, n < r.budget tr →
      (∀ k, k < n → ∃ sk, statusAt r s i tr k = .ok sk ∧ sk ∉ target ∧
        (sk ∈ pending ∨ pending = [])) →
      statusAt r s i tr n = .ok st → st ∈ target →
      waitForCloudProjectKubeReady r s i pending target tr
        = (tr ++ List.replicate (n + 1) (kubeGet s i), .ok ())) ∧
    (pending ≠ [] → ∀ n st, n < r.budget tr →
      (∀ k, k < n → ∃ sk, statusAt r s i tr k = .ok sk ∧ sk ∉ target ∧
        (sk ∈ pending ∨ pending = [])) →
      statusAt r s i tr n = .ok st → st ∉ target → st ∉ pending →
      waitForCloudProjectKubeReady r s i pending target tr
        = (tr ++ List.replicate (n + 1) (kubeGet s i), .error (.unexpectedState st))) ∧
    ((∀ k, k < r.budget tr → ∃ sk, statusAt r s i tr k = .ok sk ∧ sk ∉ target ∧
        (sk ∈ pending ∨ pending = [])) →
      waitForCloudProjectKubeReady r s i pending target tr
        = (tr ++ List.replicate (r.budget tr) (kubeGet s i), .error .timeout)) := by
  have conv : ∀ n, (∀ k, k < n → ∃ sk, statusAt r s i tr k = .ok sk ∧ sk ∉ target ∧
      (sk ∈ pending ∨ pending = [])) →
      ∀ k, k < n → ∃ sk, statusAt r s i tr k = .ok sk ∧ target.contains sk = false ∧
        (pending.contains sk = true ∨ pending.length = 0) := by
    intro n h k hk
    obtain ⟨sk, h1, h2, h3⟩ := h k hk
    refine ⟨sk, h1, by simpa using h2, ?_⟩
    rcases h3 with h3 | h3
    · exact Or.inl (by simpa using h3)
    · exact Or.inr (by simp [h3])
  refine ⟨?_, ?_, ?_⟩
  · intro n st hn hpre hs ht
    obtain ⟨f, hf⟩ : ∃ f, r.budget tr = n + (f + 1) := ⟨r.budget tr - n - 1, by omega⟩
    rw [waitForCloudProjectKubeReady, hf]
    exact WaitForState_reached r s i pending target tr n f st (conv n hpre) hs
      (by simpa using ht)
  · intro hne n st hn hpre hs ht hp
    obtain ⟨f, hf⟩ : ∃ f, r.budget tr = n + (f + 1) := ⟨r.budget tr - n - 1, by omega⟩
    rw [waitForCloudProjectKubeReady, hf,
      WaitForState_polled r s i pending target tr n (f + 1) (conv n hpre)]
    have h1 : target.contains st = false := by simpa using ht
    have h2 : pending.contains st = false := by simpa using hp
    have h3 : pending.length > 0 := List.length_pos.2 hne
    simp only [WaitForState, refreshReady_eq_statusAt, hs, h1, h2, h3, if_true,
      Bool.false_eq_true, if_false]
  · intro hpre
    rw [waitForCloudProjectKubeReady]
    have h := WaitForState_polled r s i pending target tr (r.budget tr) 0
      (conv _ hpre)
    simp only [Nat.add_zero] at h
    rw [h]
    simp only [WaitForState]

/-- Witness of C12 as amended: pending INSTALLING, target READY, the statuses
INSTALLING, INSTALLING, READY. -/
theorem C12_wait_outcomes_witness :
    waitForCloudProjectKubeReady remoteInstalling "svc" "kube1" ["INSTALLING"] ["READY"]
        [createCall newKubeData]
      = ([createCall newKubeData] ++ List.replicate 3 (kubeGet "svc" "kube1"), .ok ()) :=
  (C12_wait_outcomes remoteInstalling "svc" "kube1" ["INSTALLING"] ["READY"]
    [createCall newKubeData]).1 2 "READY" (by decide)
    (fun k hk => ⟨"INSTALLING", by
      have : k = 0 ∨ k = 1 := by omega
      rcases this with h | h <;> subst h <;> decide, by decide, Or.inl (by decide)⟩)
    (by decide) (by decide)

/-! ## Create (C13) -/

/-- Counterexample to C13: the create POST is answered with the identifier kube1, the
availability wait succeeds, the fetched statuses are INSTALLING, INSTALLING, READY, and
the GET of the read is answered under the identifier kube2: the create ends in success
with kube2 as the identifier of the resource, not kube1. -/
theorem C13_counterexample :
    remoteOtherId.respond [] (createCall newKubeData) = .ok ⟨"kube1", ""⟩ ∧
    helpersQuiet.WaitAvailable remoteOtherId (kubeEndpoint "svc" "kube1")
      [createCall newKubeData] = ([createCall newKubeData], .ok ()) ∧
    statusAt remoteOtherId "svc" "kube1" [createCall newKubeData] 0 = .ok "INSTALLING" ∧
    statusAt remoteOtherId "svc" "kube1" [createCall newKubeData] 1 = .ok "INSTALLING" ∧
    statusAt remoteOtherId "svc" "kube1" [createCall newKubeData] 2 = .ok "READY" ∧
    resourceCloudProjectKubeCreate helpersQuiet remoteOtherId newKubeData
      = ([createCall newKubeData] ++ List.replicate 4 (kubeGet "svc" "kube1"),
         { newKubeData with
           id := "kube2", kubeconfig := "kubeconfig", attributes := some ⟨"kube2", "READY"⟩ },
         .ok ()) ∧
    (resourceCloudProjectKubeCreate helpersQuiet remoteOtherId newKubeData).2.1.id
      ≠ "kube1" := by
  decide

/-- C13 as amended: after a create POST answered with the identifier `res.id`,
(1) when the availability wait succeeds and the fetched statuses are INSTALLING some
number of times and then READY, before the timeout, the create records `res.id` and
is the read applied to the resource data with that identifier, from the trace that
ends with the READY fetch. The read fetches the cluster under `res.id`; when this GET
is answered, the create ends with the identifier of the answer, which is `res.id` when
the answer carries it, with the attributes of the answer and, for a new resource, with
the kubeconfig fetched next, whose error is the error of the create; when this GET
fails, the create ends as `CheckDeleted` decides. (2) When the availability wait
fails, the create returns an error, the resource data is unchanged and the trace ends
with that wait. (3) When the wait for READY fails, the create returns an error, the
resource data is unchanged and the trace ends with that wait. -/
theorem C13_create_outcomes (h : Helpers) (r : Remote) (d : KubeData) (res : KubeResponse)
    (hpost : r.respond [] (createCall d) = .ok res) :
    (∀ tr1 n,
      h.WaitAvailable r (kubeEndpoint d.serviceName res.id) [createCall d] = (tr1, .ok ()) →
      n < r.budget tr1 →
      (∀ k, k < n → statusAt r d.serviceName res.id tr1 k = .ok "INSTALLING") →
      statusAt r d.serviceName res.id tr1 n = .ok "READY" →
      resourceCloudProjectKubeCreate h r d
          = resourceCloudProjectKubeRead h r { d with id := res.id }
              (tr1 ++ List.replicate (n + 1) (kubeGet d.serviceName res.id)) ∧
        (∀ res2, r.respond (tr1 ++ List.replicate (n + 1) (kubeGet d.serviceName res.id))
            (kubeGet d.serviceName res.id) = .ok res2 →
          (d.isNewResource = false →
            resourceCloudProjectKubeCreate h r d
              = (tr1 ++ List.replicate (n + 2) (kubeGet d.serviceName res.id),
                 { d with id := res2.id, attributes := some res2 }, .ok ())) ∧
          (d.isNewResource = true → ∀ tr4 kubeConfig,
            h.getKubeconfig r d.serviceName res2.id
              (tr1 ++ List.replicate (n + 2) (kubeGet d.serviceName res.id))
              = (tr4, .ok kubeConfig) →
            resourceCloudProjectKubeCreate h r d
              = (tr4, { d with id := res2.id, attributes := some res2,
                               kubeconfig := kubeConfig }, .ok ())) ∧
          (d.isNewResource = true → ∀ tr4 err,
            h.getKubeconfig r d.serviceName res2.id
              (tr1 ++ List.replicate (n + 2) (kubeGet d.serviceName res.id))
              = (tr4, .error err) →
            resourceCloudProjectKubeCreate h r d
              = (tr4, { d with id := res2.id, attributes := some res2 },
                 .error (.client err))) ∧
          (resourceCloudProjectKubeCreate h r d).2.1.id = res2.id ∧
          (res2.id = res.id → (resourceCloudProjectKubeCreate h r d).2.1.id = res.id)) ∧
        (∀ err, r.respond (tr1 ++ List.replicate (n + 1) (kubeGet d.serviceName res.id))
            (kubeGet d.serviceName res.id) = .error err →
          resourceCloudProjectKubeCreate h r d
            = (tr1 ++ List.replicate (n + 2) (kubeGet d.serviceName res.id),
               (CheckDeleted { d with id := res.id } err
                 (kubeEndpoint d.serviceName res.id)).1,
               (CheckDeleted { d with id := res.id } err
                 (kubeEndpoint d.serviceName res.id)).2))) ∧
    (∀ tr1 e,
      h.WaitAvailable r (kubeEndpoint d.serviceName res.id) [createCall d]
        = (tr1, .error e) →
      resourceCloudProjectKubeCreate h r d = (tr1, d, .error (.available e))) ∧
    (∀ tr1 tr2 e,
      h.WaitAvailable r (kubeEndpoint d.serviceName res.id) [createCall d] = (tr1, .ok ()) →
      waitForCloudProjectKubeReady r d.serviceName res.id ["INSTALLING"] ["READY"] tr1
        = (tr2, .error e) →
      resourceCloudProjectKubeCreate h r d = (tr2, d, .error (.waitReady res.id e))) := by
  refine ⟨?_, ?_, ?_⟩
  · intro tr1 n hw hn hpre hs
    obtain ⟨f, hf⟩ : ∃ f, r.budget tr1 = n + (f + 1) := ⟨r.budget tr1 - n - 1, by omega⟩
    have hwait : waitForCloudProjectKubeReady r d.serviceName res.id ["INSTALLING"]
        ["READY"] tr1
        = (tr1 ++ List.replicate (n + 1) (kubeGet d.serviceName res.id), .ok ()) := by
      rw [waitForCloudProjectKubeReady, hf]
      refine WaitForState_reached r _ _ _ _ tr1 n f "READY" ?_ hs (by decide)
      intro k hk
      exact ⟨"INSTALLING", hpre k hk, by decide, Or.inl (by decide)⟩
    have hcreate : resourceCloudProjectKubeCreate h r d
        = resourceCloudProjectKubeRead h r { d with id := res.id }
            (tr1 ++ List.replicate (n + 1) (kubeGet d.serviceName res.id)) := by
      simp [resourceCloudProjectKubeCreate, Remote.exec, hpost, hw, hwait]
    have htr : tr1 ++ List.replicate (n + 1) (kubeGet d.serviceName res.id)
          ++ [kubeGet d.serviceName res.id]
        = tr1 ++ List.replicate (n + 2) (kubeGet d.serviceName res.id) := by
      rw [List.append_assoc, ← List.replicate_succ']
    refine ⟨hcreate, ?_, ?_⟩
    · intro res2 hget
      have hread : ∀ b, d.isNewResource = b →
          resourceCloudProjectKubeRead h r { d with id := res.id }
            (tr1 ++ List.replicate (n + 1) (kubeGet d.serviceName res.id))
          = if b then
              match h.getKubeconfig r d.serviceName res2.id
                  (tr1 ++ List.replicate (n + 2) (kubeGet d.serviceName res.id)) with
              | (tr2, .error err) =>
                (tr2, { d with id := res2.id, attributes := some res2 },
                  .error (.client err))
              | (tr2, .ok kubeConfig) =>
                (tr2, { d with id := res2.id, attributes := some res2,
                               kubeconfig := kubeConfig }, .ok ())
            else (tr1 ++ List.replicate (n + 2) (kubeGet d.serviceName res.id),
              { d with id := res2.id, attributes := some res2 }, .ok ()) := by
        intro b hb
        simp only [resourceCloudProjectKubeRead, Remote.exec, hget, hb, htr]
      refine ⟨?_, ?_, ?_, ?_, ?_⟩
      · intro hnew
        rw [hcreate, hread false hnew]
        simp
      · intro hnew tr4 kc hk
        rw [hcreate, hread true hnew, hk]
        simp
      · intro hnew tr4 err hk
        rw [hcreate, hread true hnew, hk]
        simp
      · rw [hcreate, hread d.isNewResource rfl]
        cases d.isNewResource with
        | false => simp
        | true =>
          simp only [if_true]
          rcases h.getKubeconfig r d.serviceName res2.id
            (tr1 ++ List.replicate (n + 2) (kubeGet d.serviceName res.id))
            with ⟨t, _ | _⟩ <;> rfl
      · intro hid
        rw [hcreate, hread d.isNewResource rfl]
        cases d.isNewResource with
        | false => simpa using hid
        | true =>
          simp only [if_true]
          rcases h.getKubeconfig r d.serviceName res2.id
            (tr1 ++ List.replicate (n + 2) (kubeGet d.serviceName res.id))
            with ⟨t, _ | _⟩ <;> exact hid
    · intro err hget
      rw [hcreate]
      simp only [resourceCloudProjectKubeRead, Remote.exec, hget, htr]
  · intro tr1 e hw
    simp [resourceCloudProjectKubeCreate, Remote.exec, hpost, hw]
  · intro tr1 tr2 e hw hwait
    simp [resourceCloudProjectKubeCreate, Remote.exec, hpost, hw, hwait]

/-- Witness of C13 as amended: the statuses INSTALLING, INSTALLING, READY, a read
answered under the identifier of the create, and the kubeconfig fetched for the new
resource. -/
theorem C13_create_outcomes_witness :
    resourceCloudProjectKubeCreate helpersQuiet remoteInstalling newKubeData
      = ([createCall newKubeData] ++ List.replicate (2 + 2) (kubeGet "svc" "kube1"),
         { newKubeData with
           id := "kube1", attributes := some ⟨"kube1", "READY"⟩,
           kubeconfig := "kubeconfig" },
         .ok ()) :=
  (((C13_create_outcomes helpersQuiet remoteInstalling newKubeData ⟨"kube1", ""⟩
    (by decide)).1 [createCall newKubeData] 2 (by decide) (by decide)
    (fun k hk => by
      have : k = 0 ∨ k = 1 := by omega
      rcases this with h | h <;> subst h <;> decide)
    (by decide)).2.1 ⟨"kube1", "READY"⟩ (by decide)).2.1 (by decide)
    ([createCall newKubeData] ++ List.replicate (2 + 2) (kubeGet "svc" "kube1"))
    "kubeconfig" (by decide)

/-! ## Customization before the version checks (C16) -/

/-- C16: when a customization block and the version both changed and the version
checks refuse the change with error `e`, (1) the trace of the update is the
customization PUT followed only by status fetches; (2) when the customization block
succeeds, its wait for READY, started right after the PUT, has returned success before
the update returns `e`, so the update returns the policy error with the PUT in its
trace; (3) when the customization block fails, its error is returned and the version is
not checked. And there are inputs on which the update returns a policy error after a
mutation was issued. -/
theorem C16_policy_error_after_customization :
    (∀ (r : Remote) (d : ResourceData) (e : UpdateError),
      changedOf d .customization = true → d.version.old ≠ d.version.new →
      validateVersionChange d.version.old d.version.new = .error e →
      (∃ n, (resourceCloudProjectKubeUpdate r d).1
        = customizationCall d :: List.replicate n (kubeGet d.serviceName d.id)) ∧
      (∀ tr1, customizationStep r d [] = (tr1, .ok ()) →
        resourceCloudProjectKubeUpdate r d = (tr1, .error e) ∧
        waitForCloudProjectKubeReady r d.serviceName d.id ["REDEPLOYING", "RESETTING"]
          ["READY"] [customizationCall d] = (tr1, .ok ()) ∧
        customizationCall d ∈ tr1) ∧
      (∀ tr1 e1, customizationStep r d [] = (tr1, .error e1) →
        resourceCloudProjectKubeUpdate r d = (tr1, .error e1))) ∧
    (∃ (r : Remote) (d : ResourceData) (e : UpdateError),
      e.isPolicyError = true ∧ (resourceCloudProjectKubeUpdate r d).2 = .error e ∧
      ∃ c ∈ (resourceCloudProjectKubeUpdate r d).1, c.isMutation = true) := by
  constructor
  · intro r d e hc hchange hval
    have hv : ∀ tr, versionStep r d tr = (tr, .error e) :=
      fun tr => versionStep_of_check_error r d tr e hchange hval
    have hup : ∀ tr1 res, customizationStep r d [] = (tr1, res) →
        resourceCloudProjectKubeUpdate r d
          = andThen (tr1, res) (fun tr => (tr, .error e)) := by
      intro tr1 res hcs
      unfold resourceCloudProjectKubeUpdate
      rw [hcs]
      cases res with
      | error e1 => rfl
      | ok u =>
        cases u
        simp [andThen, hv]
    have hshape : ∃ n, (customizationStep r d []).1
        = customizationCall d :: List.replicate n (kubeGet d.serviceName d.id) := by
      rcases stepOf_cases r d .customization [] with ⟨hc2, _⟩ | ⟨_, hk, _⟩ | ⟨_, _, n, hn⟩
      · rw [hc] at hc2; exact Bool.noConfusion hc2
      · exact StepKind.noConfusion hk
      · exact ⟨n, by simpa [stepOf, callOf] using hn⟩
    refine ⟨?_, ?_, ?_⟩
    · obtain ⟨n, hn⟩ := hshape
      refine ⟨n, ?_⟩
      rcases hcs : customizationStep r d [] with ⟨tr1, res⟩
      rw [hcs] at hn
      rw [hup tr1 res hcs]
      cases res with
      | error e1 => exact hn
      | ok u => cases u; exact hn
    · intro tr1 hcs
      have hwait := stepOf_ok_wait r d .customization [] tr1 hc rfl hcs
      refine ⟨by rw [hup tr1 _ hcs]; rfl, by simpa [callOf, pendingOf] using hwait, ?_⟩
      obtain ⟨n, hn⟩ := hshape
      rw [hcs] at hn
      simp only at hn
      rw [hn]
      simp
    · intro tr1 e1 hcs
      rw [hup tr1 _ hcs]
      rfl
  · exact ⟨remoteReady, customizationAndSkipData, .nextMinorOnly "1.24" "1.26", by decide,
      by decide, customizationCall customizationAndSkipData, by decide, by decide⟩

/-- Witness of C16: the customization succeeds and the version goes from "1.24" to
"1.26". -/
theorem C16_policy_error_after_customization_witness :
    resourceCloudProjectKubeUpdate remoteReady customizationAndSkipData
      = ([customizationCall customizationAndSkipData, kubeGet "svc" "kube1"],
         .error (.nextMinorOnly "1.24" "1.26")) :=
  ((C16_policy_error_after_customization.1 remoteReady customizationAndSkipData
    (.nextMinorOnly "1.24" "1.26") (by decide) (by decide) (by decide)).2.1
    [customizationCall customizationAndSkipData, kubeGet "svc" "kube1"] (by decide)).1

/-! ## Import identifiers (C17) -/

theorem splitNChars_two (sep : Char) (cs : List Char) :
    splitNChars sep 2 cs
      = if cs.contains sep then
          [cs.takeWhile (fun c => c != sep), (cs.dropWhile (fun c => c != sep)).tail]
        else [cs] := by
  simp [splitNChars]

theorem takeWhile_ne_sep (sep : Char) (a b : List Char) (h : sep ∉ a) :
    (a ++ sep :: b).takeWhile (fun c => c != sep) = a ∧
    (a ++ sep :: b).dropWhile (fun c => c != sep) = sep :: b := by
  induction a with
  | nil => simp
  | cons x xs ih =>
    have hx : x ≠ sep := fun hxs => h (by simp [hxs])
    have hxs : sep ∉ xs := fun hm => h (List.mem_cons_of_mem _ hm)
    obtain ⟨h1, h2⟩ := ih hxs
    simp [List.takeWhile_cons, List.dropWhile_cons, hx, h1, h2]

theorem mem_split_at_first (sep : Char) (cs : List Char) (h : sep ∈ cs) :
    ∃ a b, cs = a ++ sep :: b ∧ sep ∉ a := by
  induction cs with
  | nil => simp at h
  | cons x xs ih =>
    by_cases hx : x = sep
    · exact ⟨[], xs, by simp [hx], by simp⟩
    · have hm : sep ∈ xs := by
        rcases List.mem_cons.1 h with h1 | h1
        · exact absurd h1.symm hx
        · exact h1
      obtain ⟨a, b, h1, h2⟩ := ih hm
      refine ⟨x :: a, b, by simp [h1], ?_⟩
      intro hmem
      rcases List.mem_cons.1 hmem with h3 | h3
      · exact hx h3.symm
      · exact h2 h3

/-- Splitting in two at `/`: one part when there is no `/`, otherwise the text before
the first `/` and the whole text after it. -/
theorem SplitN_two (s : String) :
    ('/' ∉ s.toList → SplitN s '/' 2 = [s]) ∧
    (∀ a b : String, s = a ++ "/" ++ b → '/' ∉ a.toList → SplitN s '/' 2 = [a, b]) := by
  constructor
  · intro h
    have hc : s.data.contains '/' = false := by
      simpa [String.toList] using h
    simp only [SplitN, splitNChars_two, String.toList, hc, Bool.false_eq_true, if_false,
      List.map_cons, List.map_nil]
  · intro a b hs ha
    have hl : s.data = a.data ++ '/' :: b.data := by
      rw [hs]
      simp [String.data_append]
    have hc : (a.data ++ '/' :: b.data).contains '/' = true := by
      simp
    obtain ⟨h1, h2⟩ := takeWhile_ne_sep '/' a.data b.data ha
    simp only [SplitN, splitNChars_two, String.toList, hc, if_true, hl, h1, h2,
      List.map_cons, List.map_nil, List.tail_cons]

/-- C17: for both import functions, (1) the import fails with the error on the
format of the identifier exactly when the given identifier has no `/`; (2) every
identifier with a `/` is a service name without `/`, a `/` and a rest; (3) on such an
identifier the logs import gives the service name and, as identifier, the whole rest,
further `/` included; (4) so does the cluster import, which then fetches the
kubeconfig for that service name and identifier. -/
theorem C17_import_identifier (d : LogsData) (h : Helpers) (r : Remote) (k : KubeData) :
    (resourceDbaasLogsClusterImportState d = .error .importIdFormat ↔ '/' ∉ d.id.toList) ∧
    ((resourceCloudProjectKubeImportState h r k).2 = .error .importIdFormat
      ↔ '/' ∉ k.id.toList) ∧
    (∀ s : String, '/' ∈ s.toList →
      ∃ serviceName id : String, s = serviceName ++ "/" ++ id ∧ '/' ∉ serviceName.toList) ∧
    (∀ serviceName id : String, d.id = serviceName ++ "/" ++ id →
      '/' ∉ serviceName.toList →
      resourceDbaasLogsClusterImportState d
        = .ok [{ d with id := id, serviceName := serviceName }]) ∧
    (∀ serviceName id : String, k.id = serviceName ++ "/" ++ id →
      '/' ∉ serviceName.toList →
      (∀ tr err, h.getKubeconfig r serviceName id [] = (tr, .error err) →
        resourceCloudProjectKubeImportState h r k = (tr, .error (.client err))) ∧
      (∀ tr kubeConfig, h.getKubeconfig r serviceName id [] = (tr, .ok kubeConfig) →
        resourceCloudProjectKubeImportState h r k
          = (tr, .ok [{ k with id := id, serviceName := serviceName,
                               kubeconfig := kubeConfig }]))) := by
  have hdec : ∀ s : String, '/' ∈ s.toList →
      ∃ serviceName id : String, s = serviceName ++ "/" ++ id ∧
        '/' ∉ serviceName.toList := by
    intro s hs
    obtain ⟨a, b, h1, h2⟩ := mem_split_at_first '/' s.toList hs
    refine ⟨String.mk a, String.mk b, ?_, h2⟩
    apply String.ext
    have h3 : s.data = a ++ '/' :: b := h1
    simp [String.data_append, h3]
  have hlogs : ∀ serviceName id : String, d.id = serviceName ++ "/" ++ id →
      '/' ∉ serviceName.toList →
      resourceDbaasLogsClusterImportState d
        = .ok [{ d with id := id, serviceName := serviceName }] := by
    intro sn id hid hsn
    simp only [resourceDbaasLogsClusterImportState, (SplitN_two d.id).2 sn id hid hsn]
  have hkube : ∀ serviceName id : String, k.id = serviceName ++ "/" ++ id →
      '/' ∉ serviceName.toList →
      resourceCloudProjectKubeImportState h r k
        = match h.getKubeconfig r serviceName id [] with
          | (tr, .error err) => (tr, .error (.client err))
          | (tr, .ok kubeConfig) =>
            (tr, .ok [{ k with id := id, serviceName := serviceName,
                               kubeconfig := kubeConfig }]) := by
    intro sn id hid hsn
    simp only [resourceCloudProjectKubeImportState, (SplitN_two k.id).2 sn id hid hsn]
  refine ⟨?_, ?_, hdec, hlogs, ?_⟩
  · constructor
    · intro herr hmem
      obtain ⟨sn, id, h1, h2⟩ := hdec d.id hmem
      rw [hlogs sn id h1 h2] at herr
      simp at herr
    · intro hno
      simp only [resourceDbaasLogsClusterImportState, (SplitN_two d.id).1 hno]
  · constructor
    · intro herr hmem
      obtain ⟨sn, id, h1, h2⟩ := hdec k.id hmem
      rw [hkube sn id h1 h2] at herr
      rcases hk : h.getKubeconfig r sn id [] with ⟨tr, _ | _⟩ <;> rw [hk] at herr <;>
        simp at herr
    · intro hno
      simp only [resourceCloudProjectKubeImportState, (SplitN_two k.id).1 hno]
  · intro sn id hid hsn
    constructor
    · intro tr err hk
      rw [hkube sn id hid hsn, hk]
    · intro tr kc hk
      rw [hkube sn id hid hsn, hk]

/-- Witness of C17: "svc/kube1/x" gives the service name "svc" and the identifier
"kube1/x". -/
theorem C17_import_identifier_witness :
    resourceDbaasLogsClusterImportState { newLogsData with id := "svc/kube1/x" }
      = .ok [{ newLogsData with id := "kube1/x", serviceName := "svc" }] :=
  (C17_import_identifier { newLogsData with id := "svc/kube1/x" } helpersQuiet remoteReady
    newKubeData).2.2.2.1 "svc" "kube1/x" (by decide) (by decide)

/-! ## Logs cluster: the access lists restored by the delete (C14) -/

theorem copyStrings_loop (rest : List String) :
    ∀ done : List String,
      (rest.enumFrom done.length).foldl (fun out p => out.set p.1 p.2)
        (done ++ List.replicate rest.length "") = done ++ rest := by
  induction rest with
  | nil => intro done; simp
  | cons x xs ih =>
    intro done
    have hset : (done ++ List.replicate (xs.length + 1) "").set done.length x
        = (done ++ [x]) ++ List.replicate xs.length "" := by
      simp [List.replicate_succ]
    have hlen : done.length + 1 = (done ++ [x]).length := by simp
    simp only [List.enumFrom_cons, List.foldl_cons, List.length_cons, hset]
    rw [hlen, ih (done ++ [x])]
    simp

/-- The copy loop of the delete gives back the list it copies. -/
theorem copyStrings_eq (l : List String) : copyStrings l = l := by
  have h := copyStrings_loop l []
  simpa [copyStrings, List.enum] using h

/-- Read leaves the three initial sets as they are. -/
theorem logsRead_initial (h : LogsHelpers) (r : LogsRemote) (d : LogsData) (tr : List Call) :
    (resourceDbaasLogsClusterRead h r d tr).2.1.initialArchiveAllowedNetworks
        = d.initialArchiveAllowedNetworks ∧
    (resourceDbaasLogsClusterRead h r d tr).2.1.initialDirectInputAllowedNetworks
        = d.initialDirectInputAllowedNetworks ∧
    (resourceDbaasLogsClusterRead h r d tr).2.1.initialQueryAllowedNetworks
        = d.initialQueryAllowedNetworks := by
  unfold resourceDbaasLogsClusterRead
  split <;> exact ⟨rfl, rfl, rfl⟩

/-- Update leaves the three initial sets as they are. -/
theorem logsUpdate_initial (h : LogsHelpers) (r : LogsRemote) (d : LogsData)
    (tr : List Call) :
    (resourceDbaasLogsClusterUpdate h r d tr).2.1.initialArchiveAllowedNetworks
        = d.initialArchiveAllowedNetworks ∧
    (resourceDbaasLogsClusterUpdate h r d tr).2.1.initialDirectInputAllowedNetworks
        = d.initialDirectInputAllowedNetworks ∧
    (resourceDbaasLogsClusterUpdate h r d tr).2.1.initialQueryAllowedNetworks
        = d.initialQueryAllowedNetworks := by
  unfold resourceDbaasLogsClusterUpdate
  split
  · exact ⟨rfl, rfl, rfl⟩
  · split
    · exact ⟨rfl, rfl, rfl⟩
    · exact logsRead_initial h r d _

/-- C14: (1) the PUT of the delete carries, for the archive, direct-input and query
flows, the lists of the three initial sets of the resource data, element for element;
(2) it is the first call of the delete and the only call that is not a fetch; (3) it
does not depend on the configured access lists; (4) a create that has read the remote
cluster leaves, whatever happens afterwards, the three initial sets equal to the sets
of the remote access lists, so that a later delete, whatever the configured lists have
become, sends for each flow a list without repetition whose elements are exactly those
of the remote list read at creation. -/
theorem C14_delete_restores_initial_lists (h : LogsHelpers) (r : LogsRemote)
    (d : LogsData) :
    restoreCall h d
      = { method := .PUT
          endpoint := logsEndpoint h d.serviceName d.id
          body := .logsOpts d.initialArchiveAllowedNetworks
            d.initialDirectInputAllowedNetworks d.initialQueryAllowedNetworks } ∧
    (∃ gets, (resourceDbaasLogsClusterDelete h r d).1 = restoreCall h d :: gets ∧
      ∀ c ∈ gets, c.method = Method.GET) ∧
    (∀ a b c, restoreCall h { d with archiveAllowedNetworks := a
                                     directInputAllowedNetworks := b
                                     queryAllowedNetworks := c } = restoreCall h d) ∧
    (∀ (r0 : LogsRemote) tr1 clusterId res,
      h.dbaasGetClusterID r0 d.serviceName [] = (tr1, .ok clusterId) →
      r0.get tr1 (logsGet h d.serviceName clusterId) = .ok res →
      ∀ a b c,
        (restoreCall h { (resourceDbaasLogsClusterCreate h r0 d).2.1 with
            archiveAllowedNetworks := a
            directInputAllowedNetworks := b
            queryAllowedNetworks := c }).body
          = .logsOpts (h.setOf res.archiveAllowedNetworks)
              (h.setOf res.directInputAllowedNetworks)
              (h.setOf res.queryAllowedNetworks) ∧
        ((h.setOf res.archiveAllowedNetworks).Nodup ∧
          ∀ x, x ∈ h.setOf res.archiveAllowedNetworks ↔ x ∈ res.archiveAllowedNetworks) ∧
        ((h.setOf res.directInputAllowedNetworks).Nodup ∧
          ∀ x, x ∈ h.setOf res.directInputAllowedNetworks
            ↔ x ∈ res.directInputAllowedNetworks) ∧
        ((h.setOf res.queryAllowedNetworks).Nodup ∧
          ∀ x, x ∈ h.setOf res.queryAllowedNetworks ↔ x ∈ res.queryAllowedNetworks)) := by
  refine ⟨by simp [restoreCall, copyStrings_eq], ?_, ?_, ?_⟩
  · unfold resourceDbaasLogsClusterDelete
    split
    · exact ⟨[], rfl, by simp⟩
    · rename_i operationId _
      obtain ⟨gets, hg, hm⟩ := h.wait_fetches r d.serviceName operationId [restoreCall h d]
      rcases hw : h.waitForDbaasLogsOperation r d.serviceName operationId
        [restoreCall h d] with ⟨tr2, res⟩
      rw [hw] at hg
      simp only at hg
      subst hg
      cases res with
      | error e => exact ⟨gets, by simp, hm⟩
      | ok u => cases u; exact ⟨gets, by simp, hm⟩
  · intro a b c
    rfl
  · intro r0 tr1 clusterId res hid hget a b c
    have hcreate : resourceDbaasLogsClusterCreate h r0 d
        = resourceDbaasLogsClusterUpdate h r0
            { d with
              id := clusterId
              initialArchiveAllowedNetworks := h.setOf res.archiveAllowedNetworks
              initialDirectInputAllowedNetworks := h.setOf res.directInputAllowedNetworks
              initialQueryAllowedNetworks := h.setOf res.queryAllowedNetworks }
            (tr1 ++ [logsGet h d.serviceName clusterId]) := by
      simp only [resourceDbaasLogsClusterCreate, hid, hget]
    obtain ⟨i1, i2, i3⟩ := logsUpdate_initial h r0
      { d with
        id := clusterId
        initialArchiveAllowedNetworks := h.setOf res.archiveAllowedNetworks
        initialDirectInputAllowedNetworks := h.setOf res.directInputAllowedNetworks
        initialQueryAllowedNetworks := h.setOf res.queryAllowedNetworks }
      (tr1 ++ [logsGet h d.serviceName clusterId])
    rw [← hcreate] at i1 i2 i3
    refine ⟨?_, ⟨h.setOf_nodup _, h.setOf_mem _⟩, ⟨h.setOf_nodup _, h.setOf_mem _⟩,
      ⟨h.setOf_nodup _, h.setOf_mem _⟩⟩
    simp only [restoreCall, copyStrings_eq, i1, i2, i3]

/-- Witness of C14: the remote archive list holds one network twice; the delete sends
the two networks of the set, whatever the configured lists. -/
theorem C14_delete_restores_initial_lists_witness :
    (restoreCall logsHelpersQuiet
      { (resourceDbaasLogsClusterCreate logsHelpersQuiet
          (logsRemoteWith ["1.1.1.1/32", "1.1.1.1/32", "2.2.2.2/32"] [] ["0.0.0.0/0"])
          newLogsData).2.1 with
        archiveAllowedNetworks := []
        directInputAllowedNetworks := []
        queryAllowedNetworks := [] }).body
      = .logsOpts ["1.1.1.1/32", "2.2.2.2/32"] [] ["0.0.0.0/0"] :=
  ((C14_delete_restores_initial_lists logsHelpersQuiet
    (logsRemoteWith ["1.1.1.1/32", "1.1.1.1/32", "2.2.2.2/32"] [] ["0.0.0.0/0"])
    newLogsData).2.2.2
    (logsRemoteWith ["1.1.1.1/32", "1.1.1.1/32", "2.2.2.2/32"] [] ["0.0.0.0/0"])
    [] "cluster1"
    { archiveAllowedNetworks := ["1.1.1.1/32", "1.1.1.1/32", "2.2.2.2/32"]
      clusterType := "DEDICATED"
      dedicatedInputPEM := ""
      directInputAllowedNetworks := []
      directInputPEM := ""
      hostname := "gra1.logs.ovh.com"
      isDefault := true
      isUnlocked := false
      queryAllowedNetworks := ["0.0.0.0/0"]
      region := "GRA" }
    (by decide) (by decide) [] [] []).1

/-! ## Printed versions differ when their minors differ -/

theorem digitChar_spec : ∀ k, k < 10 →
    (Nat.digitChar k).isDigit = true ∧ digitVal (Nat.digitChar k) = k := by
  decide

theorem toDigitsCore_spec : ∀ (fuel n : Nat) (ds : List Char), n < fuel →
    ∃ p, Nat.toDigitsCore 10 fuel n ds = p ++ ds ∧ (∀ c ∈ p, c.isDigit = true) ∧
      p.foldl (fun acc c => acc * 10 + digitVal c) 0 = n := by
  intro fuel
  induction fuel with
  | zero => intro n ds h; omega
  | succ fuel ih =>
    intro n ds h
    obtain ⟨hd, hv⟩ := digitChar_spec (n % 10) (Nat.mod_lt _ (by decide))
    simp only [Nat.toDigitsCore]
    split
    · rename_i hz
      refine ⟨[Nat.digitChar (n % 10)], rfl, by simpa using hd, ?_⟩
      simp only [List.foldl_cons, List.foldl_nil, hv]
      omega
    · rename_i hz
      obtain ⟨p, hp, hdig, hval⟩ := ih (n / 10) (Nat.digitChar (n % 10) :: ds) (by omega)
      refine ⟨p ++ [Nat.digitChar (n % 10)], by rw [hp]; simp, ?_, ?_⟩
      · intro c hc
        rcases List.mem_append.1 hc with h1 | h1
        · exact hdig c h1
        · simp only [List.mem_singleton] at h1
          rw [h1]; exact hd
      · simp only [List.foldl_append, List.foldl_cons, List.foldl_nil, hval, hv]
        omega

/-- The printed form of a natural number: digits only, and its value is the number. -/
theorem Nat_repr_spec (n : Nat) :
    (∀ c ∈ (Nat.repr n).data, c.isDigit = true) ∧
    (Nat.repr n).data.foldl (fun acc c => acc * 10 + digitVal c) 0 = n := by
  obtain ⟨p, hp, hd, hv⟩ := toDigitsCore_spec (n + 1) n [] (by omega)
  have : (Nat.repr n).data = p := by
    simp [Nat.repr, Nat.toDigits, hp, List.asString]
  rw [this]
  exact ⟨hd, hv⟩

/-- The printed form of a non-negative integer: digits only, and injective. -/
theorem toString_int_spec (x y : Int) (hx : 0 ≤ x) (hy : 0 ≤ y) :
    (∀ c ∈ (toString x).data, c.isDigit = true) ∧
    ((toString x).data = (toString y).data → x = y) := by
  obtain ⟨a, rfl⟩ := Int.eq_ofNat_of_zero_le hx
  obtain ⟨b, rfl⟩ := Int.eq_ofNat_of_zero_le hy
  have ha : toString (a : Int) = Nat.repr a := rfl
  have hb : toString (b : Int) = Nat.repr b := rfl
  rw [ha, hb]
  refine ⟨(Nat_repr_spec a).1, ?_⟩
  intro h
  have h1 := (Nat_repr_spec a).2
  have h2 := (Nat_repr_spec b).2
  rw [h] at h1
  rw [h1] at h2
  exact congrArg _ h2

theorem Version_String_data (v : Version) (a b : Int) (hl : 3 ≤ v.segments.length)
    (h0 : v.segments[0]? = some a) (h1 : v.segments[1]? = some b) :
    ∃ X, v.String.data = (toString a).data ++ '.' :: ((toString b).data ++ '.' :: X) := by
  match hs : v.segments with
  | [] => rw [hs] at hl; simp at hl
  | [_] => rw [hs] at hl; simp at hl
  | [_, _] => rw [hs] at hl; simp at hl
  | a1 :: b1 :: c :: rest =>
    rw [hs] at h0 h1
    simp only [List.getElem?_cons_zero, List.getElem?_cons_succ, Option.some.injEq] at h0 h1
    subst h0 h1
    refine ⟨(joinWith "." ((c :: rest).map toString)).data
      ++ (if v.pre ≠ "" then "-" ++ v.pre else "").data
      ++ (if v.metadata ≠ "" then "+" ++ v.metadata else "").data, ?_⟩
    simp [Version.String, hs, joinWith, String.data_append]

/-- Two parsed versions with the same major and different minors print differently. -/
theorem Version_String_ne (v o : Version) (x p q : Int)
    (hlv : 3 ≤ v.segments.length) (hlo : 3 ≤ o.segments.length)
    (hv0 : v.segments[0]? = some x) (ho0 : o.segments[0]? = some x)
    (hv1 : v.segments[1]? = some p) (ho1 : o.segments[1]? = some q)
    (hp : 0 ≤ p) (hq : 0 ≤ q) (hne : p ≠ q) : v.String ≠ o.String := by
  intro h
  obtain ⟨X, hX⟩ := Version_String_data v x p hlv hv0 hv1
  obtain ⟨Y, hY⟩ := Version_String_data o x q hlo ho0 ho1
  rw [h, hY] at hX
  have h2 := List.append_cancel_left hX
  simp only [List.cons.injEq, true_and] at h2
  have nodot : ∀ z : Int, 0 ≤ z → '.' ∉ (toString z).data := by
    intro z hz hmem
    have := (toString_int_spec z z hz hz).1 _ hmem
    revert this
    decide
  have t1 := (takeWhile_ne_sep '.' _ Y (nodot q hq)).1
  have t2 := (takeWhile_ne_sep '.' _ X (nodot p hp)).1
  rw [h2, t2] at t1
  exact hne ((toString_int_spec p q hp hq).2 t1)

theorem compareSegments_minor_lt (a b : List Int) (x p q : Int)
    (ha0 : a[0]? = some x) (hb0 : b[0]? = some x) (ha1 : a[1]? = some p)
    (hb1 : b[1]? = some q) (hlt : p < q) : compareSegments a b = -1 := by
  match a, b with
  | a0 :: a1 :: _, b0 :: b1 :: _ =>
    simp at ha0 hb0 ha1 hb1
    subst ha0 hb0 ha1 hb1
    have h1 : ¬ (a1 = b1) := by omega
    simp [compareSegments, h1, hlt]
  | [], _ => simp at ha0
  | [_], _ => simp at ha1
  | _ :: _ :: _, [] => simp at hb0
  | _ :: _ :: _, [_] => simp at hb1

/-! ## Acceptance of a version change (C15) -/

/-- Major and minor of a parsed version: both exist, and the minor is a non-negative
int64. -/
theorem NewVersion_major_minor (s : String) (v : Version) (h : NewVersion s = .ok v) :
    ∃ a b, v.segments[0]? = some a ∧ v.segments[1]? = some b ∧ 0 ≤ b ∧ b < 2 ^ 63 := by
  obtain ⟨hl, hr⟩ := NewVersion_segments s v h
  have h0 : 0 < v.segments.length := by omega
  have h1 : 1 < v.segments.length := by omega
  refine ⟨v.segments[0], v.segments[1], List.getElem?_eq_getElem h0,
    List.getElem?_eq_getElem h1, ?_⟩
  exact hr _ (List.getElem_mem _)

/-- The checks on two parsed versions, as a chain of four tests. -/
theorem validateVersionChange_parsed (oldValue newValue : String) (vo vn : Version)
    (o0 o1 n0 n1 : Int)
    (ho : NewVersion oldValue = .ok vo) (hn : NewVersion newValue = .ok vn)
    (ho0 : vo.segments[0]? = some o0) (ho1 : vo.segments[1]? = some o1)
    (hn0 : vn.segments[0]? = some n0) (hn1 : vn.segments[1]? = some n1) :
    validateVersionChange oldValue newValue
      = if o0 ≠ 1 then .error .unsupportedMajor
        else if n0 ≠ 1 then .error .unsupportedMajor
        else if vn.LessThan vo then .error (.downgrade oldValue newValue)
        else if wrapInt64 (o1 + 1) ≠ n1 then .error (.nextMinorOnly oldValue newValue)
        else .ok () := by
  have hso := NewVersion_segments _ _ ho
  have hsn := NewVersion_segments _ _ hn
  have hlen : ¬ (vo.segments.length < 2 ∨ vn.segments.length < 2) := by omega
  simp only [validateVersionChange, ho, hn, Version.Segments, ho0, hn0, ho1, hn1]
  by_cases h1 : o0 = 1
  · by_cases h2 : n0 = 1
    · simp [h1, h2, hlen]
    · simp [h1, h2]
  · simp [h1]

/-- C15: (1) the checks accept a pair exactly when both texts parse, both majors are 1
and the new minor is the old minor plus one; (2) every accepted pair has both majors 1
and a new version strictly greater than the old one in the order of the library; (3) a
pair refused with the downgrade error does not have the new minor equal to the old
minor plus one, so the minor test refuses it as well: the downgrade test selects the
error and never decides acceptance. -/
theorem C15_acceptance_by_minor_step (oldValue newValue : String) :
    (validateVersionChange oldValue newValue = .ok () ↔
      ∃ vo vn m, NewVersion oldValue = .ok vo ∧ NewVersion newValue = .ok vn ∧
        vo.Segments[0]? = some 1 ∧ vn.Segments[0]? = some 1 ∧
        vo.Segments[1]? = some m ∧ vn.Segments[1]? = some (m + 1)) ∧
    (validateVersionChange oldValue newValue = .ok () →
      ∃ vo vn, NewVersion oldValue = .ok vo ∧ NewVersion newValue = .ok vn ∧
        vo.Segments[0]? = some 1 ∧ vn.Segments[0]? = some 1 ∧
        vn.Compare vo = 1 ∧ vo.LessThan vn = true ∧ vn.LessThan vo = false) ∧
    (validateVersionChange oldValue newValue = .error (.downgrade oldValue newValue) →
      ∃ vo vn o1 n1, NewVersion oldValue = .ok vo ∧ NewVersion newValue = .ok vn ∧
        vo.Segments[1]? = some o1 ∧ vn.Segments[1]? = some n1 ∧ n1 ≠ o1 + 1) := by
  -- what an accepted or downgrade-refused pair looks like
  have hshape : ∀ res, validateVersionChange oldValue newValue = res →
      (res = .ok () ∨ res = .error (.downgrade oldValue newValue)) →
      ∃ vo vn o1 n1, NewVersion oldValue = .ok vo ∧ NewVersion newValue = .ok vn ∧
        vo.segments[0]? = some 1 ∧ vn.segments[0]? = some 1 ∧
        vo.segments[1]? = some o1 ∧ vn.segments[1]? = some n1 ∧
        0 ≤ o1 ∧ o1 < 2 ^ 63 ∧ 0 ≤ n1 ∧ n1 < 2 ^ 63 ∧
        ((res = .ok () ∧ vn.LessThan vo = false ∧ n1 = o1 + 1) ∨
          (res = .error (.downgrade oldValue newValue) ∧ vn.LessThan vo = true)) := by
    intro res hres hkind
    cases ho : NewVersion oldValue with
    | error e =>
      simp only [validateVersionChange, ho] at hres
      rcases hkind with h | h <;> rw [h] at hres <;> simp at hres
    | ok vo =>
      cases hn : NewVersion newValue with
      | error e =>
        simp only [validateVersionChange, ho, hn] at hres
        rcases hkind with h | h <;> rw [h] at hres <;> simp at hres
      | ok vn =>
        obtain ⟨o0, o1, ho0, ho1, hp1, hp2⟩ := NewVersion_major_minor _ _ ho
        obtain ⟨n0, n1, hn0, hn1, hq1, hq2⟩ := NewVersion_major_minor _ _ hn
        rw [validateVersionChange_parsed _ _ vo vn o0 o1 n0 n1 ho hn ho0 ho1 hn0 hn1] at hres
        by_cases h1 : o0 = 1
        · by_cases h2 : n0 = 1
          · subst h1 h2
            simp only [ne_eq, not_true_eq_false, if_false] at hres
            refine ⟨vo, vn, o1, n1, rfl, rfl, ho0, hn0, ho1, hn1, hp1, hp2, hq1, hq2, ?_⟩
            cases hl : vn.LessThan vo with
            | true =>
              simp only [hl, if_true] at hres
              exact Or.inr ⟨hres.symm, rfl⟩
            | false =>
              simp only [hl, Bool.false_eq_true, if_false] at hres
              by_cases hw : wrapInt64 (o1 + 1) = n1
              · simp only [hw, not_true_eq_false, if_false] at hres
                refine Or.inl ⟨hres.symm, rfl, ?_⟩
                by_cases hmax : o1 + 1 = 2 ^ 63
                · have := wrapInt64_neg_of_max _ hmax
                  omega
                · rw [wrapInt64_of_range (o1 + 1) (by omega) (by omega)] at hw
                  exact hw.symm
              · simp only [hw, not_false_eq_true, if_true] at hres
                rcases hkind with h | h <;> rw [h] at hres <;> simp at hres
          · simp only [h1, h2, ne_eq, not_true_eq_false, not_false_eq_true, if_true,
              if_false] at hres
            rcases hkind with h | h <;> rw [h] at hres <;> simp at hres
        · simp only [h1, ne_eq, not_false_eq_true, if_true] at hres
          rcases hkind with h | h <;> rw [h] at hres <;> simp at hres
  refine ⟨⟨?_, ?_⟩, ?_, ?_⟩
  · intro hok
    obtain ⟨vo, vn, o1, n1, ho, hn, ho0, hn0, ho1, hn1, _, _, _, _, hcase⟩ :=
      hshape _ hok (Or.inl rfl)
    rcases hcase with ⟨_, _, hstep⟩ | ⟨hbad, _⟩
    · subst hstep
      exact ⟨vo, vn, o1, ho, hn, ho0, hn0, ho1, hn1⟩
    · simp at hbad
  · rintro ⟨vo, vn, m, ho, hn, ho0, hn0, ho1, hn1⟩
    simp only [Version.Segments] at ho0 hn0 ho1 hn1
    obtain ⟨_, hr⟩ := NewVersion_segments _ _ hn
    obtain ⟨_, hr0⟩ := NewVersion_segments _ _ ho
    have hb := hr _ (List.getElem?_mem hn1)
    have hb0 := hr0 _ (List.getElem?_mem ho1)
    have hless : vn.LessThan vo = false :=
      not_LessThan_of_minor_gt _ _ 1 (m + 1) m hn0 ho0 hn1 ho1 (by omega)
    rw [validateVersionChange_parsed _ _ vo vn 1 m 1 (m + 1) ho hn ho0 ho1 hn0 hn1]
    simp [hless, wrapInt64_of_range (m + 1) (by omega) (by omega)]
  · intro hok
    obtain ⟨vo, vn, o1, n1, ho, hn, ho0, hn0, ho1, hn1, hp1, _, hq1, _, hcase⟩ :=
      hshape _ hok (Or.inl rfl)
    rcases hcase with ⟨_, hless, hstep⟩ | ⟨hbad, _⟩
    · obtain ⟨hlo, _⟩ := NewVersion_segments _ _ ho
      obtain ⟨hln, _⟩ := NewVersion_segments _ _ hn
      have hne : vn.String ≠ vo.String :=
        Version_String_ne vn vo 1 n1 o1 hln hlo hn0 ho0 hn1 ho1 hq1 hp1 (by omega)
      have hseg : vn.segments ≠ vo.segments := by
        intro h
        rw [h, ho1] at hn1
        simp at hn1
        omega
      have hcmp : vn.Compare vo = 1 := by
        simp only [Version.Compare, hne, hseg, if_false]
        exact compareSegments_minor_gt _ _ 1 n1 o1 hn0 ho0 hn1 ho1 (by omega)
      have hcmp2 : vo.Compare vn = -1 := by
        simp only [Version.Compare, hne.symm, hseg.symm, if_false]
        exact compareSegments_minor_lt _ _ 1 o1 n1 ho0 hn0 ho1 hn1 (by omega)
      refine ⟨vo, vn, ho, hn, ho0, hn0, hcmp, ?_, hless⟩
      simp [Version.LessThan, hcmp2]
    · simp at hbad
  · intro hdown
    obtain ⟨vo, vn, o1, n1, ho, hn, ho0, hn0, ho1, hn1, _, _, _, _, hcase⟩ :=
      hshape _ hdown (Or.inr rfl)
    rcases hcase with ⟨hbad, _⟩ | ⟨_, hless⟩
    · simp at hbad
    · refine ⟨vo, vn, o1, n1, ho, hn, ho1, hn1, ?_⟩
      intro hstep
      have := not_LessThan_of_minor_gt vn vo 1 n1 o1 hn0 ho0 hn1 ho1 (by omega)
      rw [this] at hless
      exact Bool.noConfusion hless

/-- Witness of C15: "1.24" to "1.25" is accepted. -/
theorem C15_acceptance_by_minor_step_witness :
    validateVersionChange "1.24" "1.25" = .ok () :=
  (C15_acceptance_by_minor_step "1.24" "1.25").1.2
    ⟨⟨[1, 24, 0], "", "", 2, "1.24"⟩, ⟨[1, 25, 0], "", "", 2, "1.25"⟩, 24,
      by decide, by decide, by decide, by decide, by decide, by decide⟩

end OvhKube
